import Mathlib

set_option maxHeartbeats 1000000

/- Shallow embedding of the document-extractor module of the vidaa_legal
   repository (content extraction, legal-reference extraction,
   related-document scoring and context building), together with theorems
   checking the specification claims against this embedding.
   Strings are modelled as Lean strings over their character lists; the
   regular expressions of the source are embedded as explicit scanning
   functions over character lists with the same leftmost-match,
   greedy-with-local-backtracking behaviour on the character classes they
   use. Host-environment effects (network fetches, DOM parsing, PDF
   reading, the system clock) are passed in as explicit parameters. -/

/-- JavaScript whitespace test restricted to the ASCII part of the class
backslash-s, which is the part exercised by this module. -/
def isJsSpace (c : Char) : Bool :=
  c = ' ' || c = '\t' || c = '\n' || c = '\r' || c = '\x0b' || c = '\x0c'

/-- ASCII digit test, the class backslash-d, by code point. -/
def isDigitCh (c : Char) : Bool := 48 ≤ c.toNat && c.toNat ≤ 57

/-- ASCII uppercase letter test, the class A-Z, by code point. -/
def isUpperCh (c : Char) : Bool := 65 ≤ c.toNat && c.toNat ≤ 90

/-- ASCII lowercase letter test, by code point. -/
def isLowerCh (c : Char) : Bool := 97 ≤ c.toNat && c.toNat ≤ 122

/-- ASCII letter test, the class A-Z under the case-insensitive flag. -/
def isLetterCh (c : Char) : Bool := isUpperCh c || isLowerCh c

/-- Lowercasing of one character as String.prototype.toLowerCase acts on
ASCII input; other code points are left unchanged in this model. -/
def jsCharLower (c : Char) : Char :=
  if isUpperCh c then Char.ofNat (c.toNat + 32) else c

/-- Lowercasing of a string, modelling String.prototype.toLowerCase. -/
def jsToLower (s : String) : String := ⟨s.data.map jsCharLower⟩

/-- Case-insensitive character comparison used by the i-flagged patterns. -/
def ciEq (a b : Char) : Bool := jsCharLower a == jsCharLower b

/-- Consume a literal case-insensitively, returning the rest on success. -/
def eatLitCi : List Char → List Char → Option (List Char)
  | [], l => some l
  | _ :: _, [] => none
  | p :: ps, c :: cs => if ciEq p c then eatLitCi ps cs else none

/-- Exact list-prefix test on characters. -/
def isPfxOf : List Char → List Char → Bool
  | [], _ => true
  | _ :: _, [] => false
  | p :: ps, c :: cs => p == c && isPfxOf ps cs

/-- Exact substring test on characters, modelling String.prototype.includes. -/
def isInfixOfChars (nd : List Char) : List Char → Bool
  | [] => isPfxOf nd []
  | c :: cs => isPfxOf nd (c :: cs) || isInfixOfChars nd cs

/-- String.prototype.includes: the haystack contains the needle. -/
def strIncludes (hay needle : String) : Bool := isInfixOfChars needle.data hay.data

/-- Consume exactly n digits, returning them and the rest. -/
def eatDigitsN (n : Nat) (l : List Char) : Option (List Char × List Char) :=
  let d := l.take n
  if d.length = n && d.all isDigitCh then some (d, l.drop n) else none

/-- Consume one or more digits greedily, returning them and the rest. -/
def eatDigitsPlus (l : List Char) : Option (List Char × List Char) :=
  let d := l.takeWhile isDigitCh
  if d.isEmpty then none else some (d, l.drop d.length)

/-- Greedy consumption of the class backslash-s-star. -/
def skipWs (l : List Char) : List Char := l.dropWhile isJsSpace

/-- Consume one optional literal character. -/
def skipOptChar (c : Char) (l : List Char) : List Char :=
  match l with
  | x :: xs => if x == c then xs else x :: xs
  | [] => []

/-- Capture group of shape four-digits slash one-or-more-digits. -/
def numG4slashPlus (l : List Char) : Option (List Char × List Char) :=
  match eatDigitsN 4 l with
  | some (d4, '/' :: y) =>
    match eatDigitsPlus y with
    | some (ds, r) => some (d4 ++ '/' :: ds, r)
    | none => none
  | _ => none

/-- Capture group of shape one-or-more-digits slash four-digits. -/
def numGplusSlash4 (l : List Char) : Option (List Char × List Char) :=
  match eatDigitsPlus l with
  | some (run, '/' :: y) =>
    match eatDigitsN 4 y with
    | some (d4, r) => some (run ++ '/' :: d4, r)
    | none => none
  | _ => none

/-- Alternation of the two numeric group shapes, first alternative first,
as in the source pattern. -/
def numAlt (l : List Char) : Option (List Char × List Char) :=
  (numG4slashPlus l).orElse (fun _ => numGplusSlash4 l)

/-- Consume the optional group No dot-optional whitespace-star; the caller
backtracks over it when the following group fails, as the regex engine
does. -/
def eatNoGroup (l : List Char) : Option (List Char) :=
  match eatLitCi ['N', 'o'] l with
  | some r => some (skipWs (skipOptChar '.' r))
  | none => none

/-- Run a group parser after the optional No group, with backtracking over
that optional group. -/
def groupAfterNo (g : List Char → Option (List Char × List Char)) (l : List Char) :
    Option (List Char × List Char) :=
  match eatNoGroup l with
  | some r => (g r).orElse (fun _ => g l)
  | none => g l

/-- Consume whitespace-star, an optional open paren, the literal EU and an
optional close paren followed by whitespace-star, as in the patterns.
The optional parens need no backtracking because EU cannot start with a
paren and what follows the close paren cannot be one either. -/
def eatEuPart (l : List Char) : Option (List Char) :=
  match eatLitCi ['E', 'U'] (skipOptChar '(' (skipWs l)) with
  | some r2 => some (skipWs (skipOptChar ')' r2))
  | none => none

/-- Anchored matcher for the first regulation pattern of
extractLegalReferences, returning capture and rest after the match. -/
def patReg1At (l : List Char) : Option (List Char × List Char) :=
  match eatLitCi "Regulation".data l with
  | some r1 =>
    match eatEuPart r1 with
    | some r2 => groupAfterNo numAlt r2
    | none => none
  | none => none

/-- Anchored matcher for the second regulation pattern. -/
def patReg2At (l : List Char) : Option (List Char × List Char) :=
  match eatLitCi "Regulation".data l with
  | some r1 =>
    match eatEuPart r1 with
    | some r2 => numG4slashPlus r2
    | none => none
  | none => none

/-- Anchored matcher for the third regulation pattern, EU or EC followed by
the numeric group. -/
def patReg3At (l : List Char) : Option (List Char × List Char) :=
  match (eatLitCi ['E', 'U'] l).orElse (fun _ => eatLitCi ['E', 'C'] l) with
  | some r1 => groupAfterNo numGplusSlash4 (skipWs r1)
  | none => none

/-- Anchored matcher for the first directive pattern. -/
def patDir1At (l : List Char) : Option (List Char × List Char) :=
  match eatLitCi "Directive".data l with
  | some r1 =>
    match eatEuPart r1 with
    | some r2 => groupAfterNo numAlt r2
    | none => none
  | none => none

/-- Anchored matcher for the second directive pattern. -/
def patDir2At (l : List Char) : Option (List Char × List Char) :=
  match eatLitCi "Directive".data l with
  | some r1 => numG4slashPlus (skipWs r1)
  | none => none

/-- Core of the CELEX identifier shape: five digits, a letter, four digits
and an optional parenthesised digit suffix (greedy, with backtracking when
the suffix is incomplete). The flag selects case-insensitive letters. -/
def celexCore (ci : Bool) (l : List Char) : Option (List Char × List Char) :=
  match eatDigitsN 5 l with
  | some (d5, c :: r2) =>
    if (if ci then isLetterCh c else isUpperCh c) then
      match eatDigitsN 4 r2 with
      | some (d4, r3) =>
        match r3 with
        | '(' :: r4 =>
          match eatDigitsPlus r4 with
          | some (ds, ')' :: r6) => some (d5 ++ c :: (d4 ++ '(' :: ds ++ [')']), r6)
          | _ => some (d5 ++ c :: d4, r3)
        | _ => some (d5 ++ c :: d4, r3)
      | none => none
    else none
  | _ => none

/-- Anchored matcher for the first CELEX pattern, with the explicit CELEX
marker, case-insensitive. -/
def patCelex1At (l : List Char) : Option (List Char × List Char) :=
  match eatLitCi "CELEX".data l with
  | some r1 => celexCore true (r1.dropWhile (fun c => c == ':' || isJsSpace c))
  | none => none

/-- Anchored matcher for the bare CELEX pattern, case-sensitive. -/
def patCelex2At (l : List Char) : Option (List Char × List Char) :=
  celexCore false l

/-- Anchored matcher for the keyword phrasing pattern of extractCelexId. -/
def patCelex3At (l : List Char) : Option (List Char × List Char) :=
  match ((eatLitCi "Regulation".data l).orElse (fun _ => eatLitCi "Directive".data l)).orElse
      (fun _ => eatLitCi "Decision".data l) with
  | some r1 =>
    match eatEuPart r1 with
    | some r2 => groupAfterNo numG4slashPlus r2
    | none => none
  | none => none

/-- Leftmost match of an anchored matcher over a text, returning its
capture group, as String.prototype.match does for these patterns. -/
def scanFirst (p : List Char → Option (List Char × List Char)) : List Char → Option (List Char)
  | [] => (p []).map Prod.fst
  | c :: cs =>
    match p (c :: cs) with
    | some (g, _) => some g
    | none => scanFirst p cs

/-- Fuelled global scan: all non-overlapping leftmost matches in order, as
the exec loops of the source do. Every pattern here consumes at least one
character on success, so fuel length-plus-one is always enough. -/
def scanAllF (p : List Char → Option (List Char × List Char)) : Nat → List Char → List (List Char)
  | 0, _ => []
  | _ + 1, [] =>
    match p [] with
    | some (g, _) => [g]
    | none => []
  | fuel + 1, c :: cs =>
    match p (c :: cs) with
    | some (g, rest) => g :: scanAllF p fuel rest
    | none => scanAllF p fuel cs

/-- Global scan with adequate fuel. -/
def scanAll (p : List Char → Option (List Char × List Char)) (t : List Char) : List (List Char) :=
  scanAllF p (t.length + 1) t

/-- extractCelexId from the source: first match wins over the three
patterns in priority order, with the falsiness guard on the argument. -/
def extractCelexId (t : String) : Option String :=
  if t = "" then none
  else
    (((scanFirst patCelex1At t.data).orElse (fun _ => scanFirst patCelex2At t.data)).orElse
      (fun _ => scanFirst patCelex3At t.data)).map (fun g => (⟨g⟩ : String))

/-- Set.add modelled on insertion-ordered lists without duplicates, as a
JavaScript Set iterates. -/
def addRef (l : List String) (s : String) : List String :=
  if l.contains s then l else l ++ [s]

/-- All regulation-pattern matches of a text, normalised with the
Regulation marker, in source pattern order. -/
def regMatches (t : String) : List String :=
  ((scanAll patReg1At t.data ++ scanAll patReg2At t.data) ++ scanAll patReg3At t.data).map
    (fun g => "Regulation " ++ (⟨g⟩ : String))

/-- All directive-pattern matches of a text, normalised with the Directive
marker, in source pattern order. -/
def dirMatches (t : String) : List String :=
  (scanAll patDir1At t.data ++ scanAll patDir2At t.data).map
    (fun g => "Directive " ++ (⟨g⟩ : String))

/-- The pattern-driven phase of extractLegalReferences: regulation matches
then directive matches inserted into the reference set in order. -/
def regDirPhase (t : String) : List String :=
  (regMatches t ++ dirMatches t).foldl addRef []

/-- The fixed acronym dictionary, in source insertion order. -/
def acronymsList : List (String × String) :=
  [("GDPR", "Regulation (EU) 2016/679"),
   ("DSA", "Regulation (EU) 2022/2065"),
   ("DMA", "Regulation (EU) 2022/1925"),
   ("AI Act", "Regulation (EU) 2024/1689"),
   ("MiCA", "Regulation (EU) 2023/1114"),
   ("DORA", "Regulation (EU) 2022/2554"),
   ("ePrivacy", "Directive 2002/58/EC"),
   ("NIS2", "Directive (EU) 2022/2555"),
   ("CRA", "Cyber Resilience Act"),
   ("Data Act", "Regulation (EU) 2023/2854"),
   ("MiFID II", "Directive 2014/65/EU"),
   ("MiFIR", "Regulation (EU) 600/2014")]

/-- The acronym phase of extractLegalReferences: a case-sensitive literal
substring test per dictionary entry, adding the expansion on a hit. -/
def acronymPhase (t : String) (acc : List String) : List String :=
  acronymsList.foldl (fun acc2 pr => if strIncludes t pr.1 then addRef acc2 pr.2 else acc2) acc

/-- extractLegalReferences from the source, with the falsiness guard and
the two phases in order; the result list is the Set in insertion order. -/
def extractLegalReferences (t : String) : List String :=
  if t = "" then [] else acronymPhase t (regDirPhase t)

/-- JavaScript strict equality on possibly-absent string fields: two
absent values compare equal, an absent and a present value do not. -/
def jsEqOpt (a b : Option String) : Bool :=
  match a, b with
  | none, none => true
  | some x, some y => x == y
  | _, _ => false

/-- Truthiness of a possibly-absent string: present and nonempty. -/
def jsTruthy (o : Option String) : Bool :=
  match o with
  | some s => !(s == "")
  | none => false

/-- String coercion of a possibly-absent value as template literals and
RegExp.prototype.test perform it: absent becomes the text undefined. -/
def jsToString (o : Option String) : String := o.getD "undefined"

/-- String.prototype.slice with start zero and a nonnegative end. -/
def jsSlice (s : String) (n : Nat) : String := ⟨s.data.take n⟩

/-- String.prototype.trim. -/
def jsTrim (s : String) : String :=
  ⟨((s.data.dropWhile isJsSpace).reverse.dropWhile isJsSpace).reverse⟩

/-- DocumentItem: the read-only item record consumed by the scorer. The
field added models the added-or-date string of the source items, and
addedMs the epoch milliseconds new Date yields on it (none when absent or
unparseable, in which case the NaN comparisons of the source are false). -/
structure DocumentItem where
  id : Option String := none
  title : Option String := none
  url : Option String := none
  summary : Option String := none
  tags : List String := []
  categories : List String := []
  added : Option String := none
  addedMs : Option Int := none
deriving DecidableEq, Repr

/-- RelatedMatch: one scored candidate of findRelatedDocuments. -/
structure RelatedMatch where
  item : DocumentItem
  score : Nat
  relationship : String
deriving DecidableEq, Repr

/-- The lowercased title-space-summary text the scorer builds per item. -/
def itemTextOf (it : DocumentItem) : String :=
  jsToLower ((it.title.getD "") ++ " " ++ (it.summary.getD ""))

/-- extractCelexId of the title, else of the url, as the scorer computes
it; an absent field behaves like the falsiness guard of extractCelexId. -/
def celexOf (it : DocumentItem) : Option String :=
  (it.title.bind extractCelexId).orElse (fun _ => it.url.bind extractCelexId)

/-- Case-insensitive substring test, the effect of an i-flagged literal
pattern under RegExp.prototype.test on ASCII input. -/
def ciIncl (hay needle : String) : Bool := strIncludes (jsToLower hay) (jsToLower needle)

/-- Test of the amendment keyword patterns against a title, coerced to a
string as RegExp.prototype.test does. A pattern whose whole suffix is
optional reduces to a substring test on its stem; the delegat pattern
requires one of its two suffixes. -/
def amendTitleTest (title : Option String) : Bool :=
  let t := jsToString title
  ciIncl t "amend" || ciIncl t "implement" || ciIncl t "supplement" ||
    ciIncl t "delegating" || ciIncl t "delegated" || ciIncl t "corrigendum"

/-- Number of distinct strings of the first list appearing in the second,
the size of the intersection of the two Sets built by the source. -/
def sharedCount (a b : List String) : Nat :=
  ((a.foldl addRef []).filter (fun x => b.contains x)).length

/-- Splitting on single whitespace characters; relative to the source
split on whitespace runs this yields extra empty tokens, which the length
filter of wordsOver4 removes, so the filtered word lists coincide. -/
def splitWsAux : List Char → List Char → List String
  | acc, [] => [⟨acc.reverse⟩]
  | acc, c :: cs =>
    if isJsSpace c then (⟨acc.reverse⟩ : String) :: splitWsAux [] cs
    else splitWsAux (c :: acc) cs

/-- Words of length above four of a text, as the lexical-overlap step
collects them. -/
def wordsOver4 (s : String) : List String :=
  (splitWsAux [] s.data).filter (fun w => 4 < w.length)

/-- The recency bonus: ten within thirty days of now, five within ninety,
in epoch milliseconds; absent or unparseable dates contribute nothing. -/
def recencyBonus (it : DocumentItem) (now : Int) : Nat :=
  if jsTruthy it.added then
    match it.addedMs with
    | some t =>
      if (now - t).natAbs < 2592000000 then 10
      else if (now - t).natAbs < 7776000000 then 5
      else 0
    | none => 0
  else 0

/-- The skip test of the scorer loop: strict equality of ids or of urls. -/
def identifiedWithTarget (item other : DocumentItem) : Bool :=
  jsEqOpt other.id item.id || jsEqOpt other.url item.url

/-- Score and relationship of one candidate against the target, following
the accumulation order of the source loop body. -/
def computeScore (item other : DocumentItem) (now : Int) : Nat × Option String :=
  let itemText := itemTextOf item
  let itemCelex := celexOf item
  let itemRefs := extractLegalReferences itemText
  let otherText := itemTextOf other
  let otherCelex := celexOf other
  let otherRefs := extractLegalReferences otherText
  let celexHit :=
    match itemCelex, otherCelex with
    | some a, some b => jsSlice a 9 == jsSlice b 9
    | _, _ => false
  let score1 : Nat := if celexHit then 50 else 0
  let rel1 : Option String := if celexHit then some "same-regulation" else none
  let hit1 := itemRefs.any (fun ref => strIncludes otherText (jsToLower ref))
  let score2 := score1 + (if hit1 then 30 else 0)
  let rel2 := if hit1 then rel1.orElse (fun _ => some "references") else rel1
  let hit2 := otherRefs.any (fun ref => strIncludes itemText (jsToLower ref))
  let score3 := score2 + (if hit2 then 30 else 0)
  let rel3 := if hit2 then rel2.orElse (fun _ => some "referenced-by") else rel2
  let amendHit := amendTitleTest other.title && hit2
  let score4 := score3 + (if amendHit then 40 else 0)
  let rel4 := if amendHit then some "amendment" else rel3
  let overlap := sharedCount (item.categories ++ item.tags) (other.categories ++ other.tags)
  let score5 := score4 + overlap * 5
  let wordOverlap := sharedCount (wordsOver4 itemText) (wordsOver4 otherText)
  let score6 := score5 + min (wordOverlap * 2) 20
  let score7 := score6 + recencyBonus other now
  (score7, rel4)

/-- One loop iteration of findRelatedDocuments: skip identified candidates
and retain a scored entry only above the threshold of ten. -/
def scoreCandidate (item other : DocumentItem) (now : Int) : Option RelatedMatch :=
  if identifiedWithTarget item other then none
  else
    let sc := computeScore item other now
    if 10 < sc.1 then some ⟨other, sc.1, sc.2.getD "related"⟩ else none

/-- The retained candidates in corpus order, before sorting. -/
def scoredList (item : DocumentItem) (allItems : List DocumentItem) (now : Int) :
    List RelatedMatch :=
  allItems.filterMap (fun other => scoreCandidate item other now)

/-- Stable insertion of one match into a list sorted by descending score;
folded from the right this is the stable descending sort that
Array.prototype.sort performs with the score comparator of the source. -/
def insertDesc (x : RelatedMatch) : List RelatedMatch → List RelatedMatch
  | [] => [x]
  | y :: ys => if y.score ≤ x.score then x :: y :: ys else y :: insertDesc x ys

/-- Stable sort by descending score. -/
def sortDesc (l : List RelatedMatch) : List RelatedMatch := l.foldr insertDesc []

/-- findRelatedDocuments from the source: guard degenerate corpora, score
each candidate, sort stably by descending score, take the first
maxResults. -/
def findRelatedDocuments (item : DocumentItem) (allItems : List DocumentItem)
    (maxResults : Nat) (now : Int) : List RelatedMatch :=
  if allItems.isEmpty then []
  else (sortDesc (scoredList item allItems now)).take maxResults

/-- DOM node model for the parsed documents DOMParser yields: elements
carry tag, optional id attribute, class list, optional role attribute and
children; text nodes carry their text. -/
inductive Node where
  | elem (tag : String) (idAttr : Option String) (classes : List String)
      (role : Option String) (children : List Node)
  | text (s : String)
deriving Repr

mutual
/-- textContent of a node: concatenation of all text descendants. -/
def textContentN : Node → String
  | .text s => s
  | .elem _ _ _ _ cs => textContentL cs
/-- textContent over a child list. -/
def textContentL : List Node → String
  | [] => ""
  | n :: ns => textContentN n ++ textContentL ns
end

mutual
/-- Elements of a subtree including its root, in document order. -/
def elemsIncl : Node → List Node
  | .text _ => []
  | .elem t i c r cs => .elem t i c r cs :: elemsList cs
/-- Elements of a forest in document order. -/
def elemsList : List Node → List Node
  | [] => []
  | n :: ns => elemsIncl n ++ elemsList ns
end

/-- Descendant elements of a root in document order; as in the DOM, the
root itself is not among them. -/
def descElems (n : Node) : List Node :=
  match n with
  | .elem _ _ _ _ cs => elemsList cs
  | .text _ => []

/-- Tag of an element node. -/
def tagOf : Node → String
  | .elem t _ _ _ _ => t
  | .text _ => ""

/-- querySelectorAll with a comma list of tag selectors. -/
def queryTags (root : Node) (tags : List String) : List Node :=
  (descElems root).filter (fun e => tags.contains (tagOf e))

/-- The classified section stream of extractMainContent. -/
inductive Section where
  | heading (level : Nat) (text : String)
  | para (text : String)
  | listItem (text : String)
  | table (text : String)
deriving DecidableEq, Repr

/-- The heading tag list of the source query. -/
def headingTags : List String := ["h1", "h2", "h3", "h4", "h5", "h6"]

/-- Heading level, parseInt of the second character of the tag name. -/
def hLevel (tag : String) : Nat :=
  match tag.data with
  | _ :: c :: _ => c.toNat - 48
  | _ => 0

/-- Array.prototype.join with a separator. -/
def joinSep (sep : String) : List String → String
  | [] => ""
  | x :: xs => xs.foldl (fun acc y => acc ++ sep ++ y) x

/-- The heading sections of the selected container, in document order,
keeping nonempty trimmed texts. -/
def headingSecs (m : Node) : List Section :=
  (queryTags m headingTags).filterMap fun e =>
    let t := jsTrim (textContentN e)
    if t ≠ "" then some (.heading (hLevel (tagOf e)) t) else none

/-- The paragraph sections: trimmed text kept only when nonempty and of
length strictly above twenty. -/
def paraSecs (m : Node) : List Section :=
  (queryTags m ["p"]).filterMap fun e =>
    let t := jsTrim (textContentN e)
    if t ≠ "" && 20 < t.length then some (.para t) else none

/-- The list-item sections: trimmed text kept only when nonempty and of
length strictly above ten. -/
def liSecs (m : Node) : List Section :=
  (queryTags m ["li"]).filterMap fun e =>
    let t := jsTrim (textContentN e)
    if t ≠ "" && 10 < t.length then some (.listItem t) else none

/-- One table flattened row by row, cells joined with the separator. -/
def tableRows (tb : Node) : List String :=
  (queryTags tb ["tr"]).filterMap fun tr =>
    let cells := (queryTags tr ["th", "td"]).map (fun c => jsTrim (textContentN c))
    if cells.length > 0 then some (joinSep " | " cells) else none

/-- The table sections. -/
def tableSecs (m : Node) : List Section :=
  (queryTags m ["table"]).filterMap fun tb =>
    let rows := tableRows tb
    if rows.length > 0 then some (.table (joinSep "\n" rows)) else none

/-- The classified sections exactly as extractMainContent assembles them:
all headings, then all paragraphs, then all list items, then all tables,
each group in document order. -/
def sectionsOf (m : Node) : List Section :=
  headingSecs m ++ paraSecs m ++ liSecs m ++ tableSecs m

/-- Rendering of the section stream into the combined text of the
source, with level markers, plain lines, bullet lines and table
delimiters. -/
def renderSections (l : List Section) : String :=
  l.foldl
    (fun acc s =>
      match s with
      | .heading level t =>
          acc ++ "\n\n" ++ (⟨List.replicate level '#'⟩ : String) ++ " " ++ t ++ "\n"
      | .para t => acc ++ "\n" ++ t
      | .listItem t => acc ++ "\n• " ++ t
      | .table t => acc ++ "\n\n[TABLE]\n" ++ t ++ "\n[/TABLE]\n")
    ""

/-- Selector model for the container priority list. -/
inductive Sel where
  | tagS (t : String)
  | clsS (c : String)
  | idS (i : String)
  | roleMain
deriving Repr

/-- The container priority list of extractMainContent. -/
def selectors : List Sel :=
  [.tagS "article", .tagS "main", .roleMain, .clsS "content", .clsS "article-content",
   .clsS "post-content", .idS "content", .idS "main", .clsS "eli-main-body", .clsS "texte",
   .clsS "doc-content"]

/-- Selector matching on one node. -/
def matchesSel (s : Sel) (n : Node) : Bool :=
  match s, n with
  | .tagS t, .elem t2 _ _ _ _ => t == t2
  | .clsS c, .elem _ _ cls _ _ => cls.contains c
  | .idS i, .elem _ idA _ _ _ => idA == some i
  | .roleMain, .elem _ _ _ r _ => r == some "main"
  | _, .text _ => false

/-- querySelector for one selector: first matching element in document
order. -/
def queryFirst (doc : Node) (s : Sel) : Option Node :=
  (descElems doc).find? (matchesSel s)

/-- The container selection loop of extractMainContent. -/
def pickMainEl (doc : Node) : Option Node :=
  selectors.findSome? (queryFirst doc)

/-- doc.body: the first body element of the parsed document. -/
def docBody (doc : Node) : Option Node :=
  (descElems doc).find? (fun e => tagOf e == "body")

/-- Attribute serialisation for the innerHTML fallback. -/
def attrsText (idA : Option String) (classes : List String) (role : Option String) : String :=
  (match idA with
   | some i => " id=\"" ++ i ++ "\""
   | none => "") ++
  (match classes with
   | [] => ""
   | cs => " class=\"" ++ joinSep " " cs ++ "\"") ++
  (match role with
   | some r => " role=\"" ++ r ++ "\""
   | none => "")

mutual
/-- Serialisation of a node, a model of outerHTML in which text nodes are
emitted verbatim. -/
def outerHTML : Node → String
  | .text s => s
  | .elem t i c r cs => "<" ++ t ++ attrsText i c r ++ ">" ++ innerHTMLL cs ++ "</" ++ t ++ ">"
/-- Serialisation of a child list. -/
def innerHTMLL : List Node → String
  | [] => ""
  | n :: ns => outerHTML n ++ innerHTMLL ns
end

/-- innerHTML of a node. -/
def innerHTML (n : Node) : String :=
  match n with
  | .elem _ _ _ _ cs => innerHTMLL cs
  | .text s => s

/-- Earliest occurrence of a closing literal, case-insensitively,
returning the rest after it. -/
def dropThroughCi (close : List Char) : List Char → Option (List Char)
  | [] =>
    match eatLitCi close [] with
    | some r => some r
    | none => none
  | c :: cs =>
    match eatLitCi close (c :: cs) with
    | some r => some r
    | none => dropThroughCi close cs

/-- Fuelled removal of every region between an opening literal and the
earliest following closing literal, the effect of the lazily-delimited
global block patterns of stripHtml; an opening with no closing is left in
place, as the pattern then fails at that position. -/
def stripDelimF (opn close : List Char) : Nat → List Char → List Char
  | 0, l => l
  | _ + 1, [] => []
  | fuel + 1, c :: cs =>
    match eatLitCi opn (c :: cs) with
    | some r =>
      match dropThroughCi close r with
      | some r2 => stripDelimF opn close fuel r2
      | none => c :: stripDelimF opn close fuel cs
    | none => c :: stripDelimF opn close fuel cs

/-- Delimited-block removal with adequate fuel. -/
def stripDelim (opn close : String) (l : List Char) : List Char :=
  stripDelimF opn.data close.data (l.length + 1) l

/-- After an open angle, the rest following the next close angle, provided
at least one character stands in between. -/
def gtTail : List Char → Option (List Char)
  | [] => none
  | c :: cs => if c = '>' then some cs else gtTail cs

/-- Tail after a nonempty tag body and its close angle. -/
def findGt : List Char → Option (List Char)
  | [] => none
  | c :: cs => if c = '>' then none else gtTail cs

/-- Fuelled replacement of every tag-shaped run by one space. -/
def stripTagsF : Nat → List Char → List Char
  | 0, l => l
  | _ + 1, [] => []
  | fuel + 1, c :: cs =>
    if c = '<' then
      match findGt cs with
      | some r => ' ' :: stripTagsF fuel r
      | none => c :: stripTagsF fuel cs
    else c :: stripTagsF fuel cs

/-- Fuelled global replacement of a literal. -/
def replaceAllF (pat rep : List Char) : Nat → List Char → List Char
  | 0, l => l
  | _ + 1, [] => []
  | fuel + 1, c :: cs =>
    if isPfxOf pat (c :: cs) then rep ++ replaceAllF pat rep fuel (List.drop pat.length (c :: cs))
    else c :: replaceAllF pat rep fuel cs

/-- Literal global replacement with adequate fuel. -/
def replaceAllLit (pat rep : String) (l : List Char) : List Char :=
  replaceAllF pat.data rep.data (l.length + 1) l

/-- Fuelled collapse of whitespace runs into single spaces. -/
def collapseWsF : Nat → List Char → List Char
  | 0, l => l
  | _ + 1, [] => []
  | fuel + 1, c :: cs =>
    if isJsSpace c then ' ' :: collapseWsF fuel (cs.dropWhile isJsSpace)
    else c :: collapseWsF fuel cs

/-- stripHtml from the source: remove script, style, nav, footer, header
and aside blocks and comments, replace remaining tags by spaces, decode
the listed entities, collapse whitespace and trim. -/
def stripHtml (html : String) : String :=
  let l1 := stripDelim "<script" "</script>" html.data
  let l2 := stripDelim "<style" "</style>" l1
  let l3 := stripDelim "<nav" "</nav>" l2
  let l4 := stripDelim "<footer" "</footer>" l3
  let l5 := stripDelim "<header" "</header>" l4
  let l6 := stripDelim "<aside" "</aside>" l5
  let l7 := stripDelim "<!--" "-->" l6
  let l8 := stripTagsF (l7.length + 1) l7
  let l9 := replaceAllLit "&nbsp;" " " l8
  let l10 := replaceAllLit "&amp;" "&" l9
  let l11 := replaceAllLit "&lt;" "<" l10
  let l12 := replaceAllLit "&gt;" ">" l11
  let l13 := replaceAllLit "&quot;" "\"" l12
  let l14 := replaceAllLit "&#39;" (⟨['\'']⟩ : String) l13
  let l15 := collapseWsF (l14.length + 1) l14
  jsTrim ⟨l15⟩

/-- extractMainContent from the source, over the parsed document DOMParser
yields for the raw markup; the raw markup is kept for the fallback path
without a body. -/
def extractMainContent (rawHtml : String) (doc : Node) : String :=
  match (pickMainEl doc).orElse (fun _ => docBody doc) with
  | none => stripHtml rawHtml
  | some mainEl =>
    let result := renderSections (sectionsOf mainEl)
    let final := if (jsTrim result).length < 200 then stripHtml (innerHTML mainEl) else result
    jsTrim final

/-- String suffix test. -/
def strEndsWith (s suf : String) : Bool := isPfxOf suf.data.reverse s.data.reverse

/-- isPdfUrl from the source, with the falsiness guard. -/
def isPdfUrl (url : Option String) : Bool :=
  match url with
  | none => false
  | some u =>
    if u == "" then false
    else
      let lower := jsToLower u
      strEndsWith lower ".pdf" || strIncludes lower "/pdf/" ||
        strIncludes lower "format=pdf" || strIncludes lower "type=pdf"

/-- The result object of fetchDocumentContent; absent fields are none. -/
structure ExtractionResult where
  success : Bool
  content : Option String := none
  rtype : Option String := none
  truncated : Option Bool := none
  originalLength : Option Int := none
  source : Option String := none
  error : Option String := none
deriving DecidableEq, Repr

/-- The value fetchViaBackend resolves with: either the parsed proxy JSON
response, of arbitrary shape, or one of the failure objects
fetchViaBackend itself builds; success models the truthiness of the
success field. -/
structure ProxyResponse where
  success : Bool
  content : Option String := none
  rtype : Option String := none
  originalLength : Option Int := none
  error : Option String := none
  isBackendError : Bool := false
deriving DecidableEq, Repr

/-- Outcome of the direct-channel fetch, abstracting the network, the
content-type inspection, the HTML parsing and the PDF reading. An abort
of any awaited step is abortErr; any other thrown error is netErr or a
pdfResp error; a PDF-typed response carries the outcome of the inline
page extraction; an html response carries its raw text and the document
DOMParser yields for it. -/
inductive DirectFetch where
  | abortErr
  | netErr (msg : String)
  | httpErr (status : Nat)
  | pdfResp (outcome : Except String String)
  | htmlResp (rawHtml : String) (doc : Node)

/-- Environment of the direct channel: the extractPdfText outcome used on
PDF-shaped urls (none models the null of its internal catch), and the
fetch outcome used past that point. -/
structure DirectEnv where
  prePdf : Option String := none
  fetch : DirectFetch

/-- A failure result object carrying an error message. -/
def failResult (msg : String) : ExtractionResult :=
  { success := false, error := some msg }

/-- The error message of the direct catch block, which mentions the
backend only when the proxy failure was a transport failure. -/
def directMsg (proxy : ProxyResponse) (m : String) : String :=
  if proxy.isBackendError then
    "Direct fetch failed (" ++ m ++ "). Start the backend server: python backend/server.py"
  else m

/-- A success result for a direct-channel text, with truncation to
maxLength and the pre-truncation length recorded. -/
def directSuccess (t : String) (rtype : String) (maxLength : Nat) : ExtractionResult :=
  { success := true, content := some (jsSlice t maxLength), rtype := some rtype,
    truncated := some (decide (maxLength < t.length)),
    originalLength := some (t.length : Int), source := some "direct" }

/-- fetchDocumentContent from the source: the proxy channel first, then
the direct channel; a thrown error that escapes the function is the error
component, everything else is a returned result object. -/
def fetchDocumentContent (url : Option String) (maxLength : Nat) (proxy : ProxyResponse)
    (env : DirectEnv) : Except String ExtractionResult :=
  if !jsTruthy url then .ok (failResult "No URL provided")
  else if proxy.success then
    match proxy.content with
    | none => .error "TypeError: cannot read slice of undefined content"
    | some c =>
      .ok { success := true, content := some (jsSlice c maxLength), rtype := proxy.rtype,
            truncated := some (decide (maxLength < c.length)),
            originalLength := proxy.originalLength, source := some "backend" }
  else if isPdfUrl url && jsTruthy env.prePdf then
    directSuccess (env.prePdf.getD "") "pdf" maxLength
      |> .ok
  else
    match env.fetch with
    | .abortErr => .ok (failResult "Request timeout")
    | .netErr m => .ok (failResult (directMsg proxy m))
    | .httpErr status => .ok (failResult ("HTTP " ++ toString status))
    | .pdfResp (.error m) => .ok (failResult (directMsg proxy m))
    | .pdfResp (.ok t) => .ok (directSuccess t "pdf" maxLength)
    | .htmlResp rawHtml doc => .ok (directSuccess (extractMainContent rawHtml doc) "html" maxLength)

/-- The per-document record buildRelatedDocumentsContext returns. -/
structure DocInfo where
  index : Nat
  title : Option String
  url : Option String
  date : Option String
  relationship : String
  references : List String
  content : Option String := none
  contentType : Option String := none
deriving DecidableEq, Repr

/-- The date display of a context block: the added-or-date string when
truthy, else Unknown. -/
def dateDisplay (it : DocumentItem) : String :=
  if jsTruthy it.added then it.added.getD "" else "Unknown"

/-- One block of buildRelatedDocumentsContext: the document record, the
context entry text, and the optional per-document content fetch through
the supplied fetcher, whose thrown errors propagate. -/
def buildOneDoc (fetchContent : Bool) (maxContentPerDoc : Nat)
    (fetcher : String → Except String ExtractionResult) (i : Nat) (m : RelatedMatch) :
    Except String (String × DocInfo) :=
  let it := m.item
  let refs := extractLegalReferences (jsToString it.title ++ " " ++ (it.summary.getD ""))
  let base : DocInfo :=
    { index := i + 1, title := it.title, url := it.url, date := it.added,
      relationship := m.relationship, references := refs }
  let entry :=
    "[Related Doc " ++ toString (i + 1) ++ "] (" ++ m.relationship ++ ")\nTitle: " ++
      jsToString it.title ++ "\nDate: " ++ dateDisplay it ++ "\nURL: " ++ jsToString it.url ++
      "\nSummary: " ++ jsSlice (it.summary.getD "") 500
  if fetchContent && jsTruthy it.url then
    match fetcher (it.url.getD "") with
    | .error e => .error e
    | .ok r =>
      if r.success then
        match r.content with
        | some c =>
          .ok (entry ++ "\n\n[Full Content]\n" ++ jsSlice c maxContentPerDoc,
            { base with content := some c, contentType := r.rtype })
        | none => .error "TypeError: cannot read slice of undefined content"
      else .ok (entry, base)
  else .ok (entry, base)

/-- The indexed loop of buildRelatedDocumentsContext. -/
def buildDocsLoop (fetchContent : Bool) (maxContentPerDoc : Nat)
    (fetcher : String → Except String ExtractionResult) :
    Nat → List RelatedMatch → Except String (List String × List DocInfo)
  | _, [] => .ok ([], [])
  | i, m :: ms =>
    match buildOneDoc fetchContent maxContentPerDoc fetcher i m with
    | .error e => .error e
    | .ok (entry, info) =>
      match buildDocsLoop fetchContent maxContentPerDoc fetcher (i + 1) ms with
      | .error e => .error e
      | .ok (entries, infos) => .ok (entry :: entries, info :: infos)

/-- buildRelatedDocumentsContext from the source, with the per-document
content fetches abstracted into the fetcher, which stands for
fetchDocumentContent at maxLength maxContentPerDoc in the ambient
environment. -/
def buildRelatedDocumentsContext (relatedDocs : List RelatedMatch) (fetchContent : Bool)
    (maxContentPerDoc : Nat) (fetcher : String → Except String ExtractionResult) :
    Except String (String × List DocInfo) :=
  if relatedDocs.isEmpty then .ok ("", [])
  else
    match buildDocsLoop fetchContent maxContentPerDoc fetcher 0 relatedDocs with
    | .error e => .error e
    | .ok (entries, infos) => .ok (joinSep "\n\n---\n\n" entries, infos)

def w2item : DocumentItem :=
  { id := some "t", title := some "Energy markets update", url := some "http://t",
    tags := ["energy", "markets"] }

def w2other : DocumentItem :=
  { id := some "c", title := some "Energy markets update continued", url := some "http://c",
    tags := ["energy", "markets"] }

def c5item : DocumentItem := { title := some "Alpha topic", tags := ["t1", "t2", "t3"] }

def c5other : DocumentItem := { title := some "Beta topic", tags := ["t1", "t2", "t3"] }

def c6item : DocumentItem :=
  { id := some "a", title := some "Regulation (EU) 2024/1689",
    summary := some "Regulation 2024/1689 on artificial intelligence", url := some "http://a" }

def c6other : DocumentItem :=
  { id := some "b", title := some "Amending Regulation (EU) 2024/1689", url := some "http://b" }

def c1proxy : ProxyResponse :=
  { success := true, content := some "hello", rtype := some "html", originalLength := some 1000 }

/-- Characters allowed in a numeric capture group. -/
def digitSlash (c : Char) : Bool := isDigitCh c || c == '/'

/-- Shape of a reference produced by the number patterns: the Regulation
or Directive marker followed by digits and slashes only. No acronym
expansion of the dictionary has this shape. -/
def refShape (r : String) : Bool :=
  (isPfxOf "Regulation ".data r.data && (r.data.drop 11).all digitSlash) ||
  (isPfxOf "Directive ".data r.data && (r.data.drop 10).all digitSlash)

def w10item : DocumentItem :=
  { title := some "Update", summary := some "Regulation (EU) 2016/679 applies" }

/-- Kind test for heading sections. -/
def isHeadingSec : Section → Bool
  | .heading _ _ => true
  | _ => false

/-- Kind test for paragraph sections. -/
def isParaSec : Section → Bool
  | .para _ => true
  | _ => false

/-- Kind test for list-item sections. -/
def isLiSec : Section → Bool
  | .listItem _ => true
  | _ => false

/-- Kind test for table sections. -/
def isTableSec : Section → Bool
  | .table _ => true
  | _ => false

/-- All element tags the classifier recognises. -/
def allKindTags : List String := headingTags ++ ["p", "li", "table"]

/-- Classification of one element by its tag, with the same guards as the
grouped queries of extractMainContent. -/
def classifyElem (e : Node) : Option Section :=
  if headingTags.contains (tagOf e) then
    (let t := jsTrim (textContentN e)
     if t ≠ "" then some (.heading (hLevel (tagOf e)) t) else none)
  else if List.contains ["p"] (tagOf e) then
    (let t := jsTrim (textContentN e)
     if t ≠ "" && 20 < t.length then some (.para t) else none)
  else if List.contains ["li"] (tagOf e) then
    (let t := jsTrim (textContentN e)
     if t ≠ "" && 10 < t.length then some (.listItem t) else none)
  else if List.contains ["table"] (tagOf e) then
    (let rows := tableRows e
     if rows.length > 0 then some (.table (joinSep "\n" rows)) else none)
  else none

/-- Modelled from the spec sentence stating that the classified sections
are emitted in document order: the same classification applied in one
walk over the recognised elements in document order. -/
def sectionsSpecOrder (m : Node) : List Section :=
  (queryTags m allKindTags).filterMap classifyElem

def c4doc : Node :=
  .elem "body" none [] none
    [.elem "p" none [] none [.text "This opening paragraph is long enough to be kept."],
     .elem "h1" none [] none [.text "Heading title"]]

def c9doc : Node :=
  .elem "body" none [] none
    [.elem "p" none [] none [.text "12345678901234567890"],
     .elem "li" none [] none [.text "1234567890"]]

/-- addRef keeps the inserted element present. -/
theorem mem_addRef_self (l : List String) (s : String) : s ∈ addRef l s := by
  rw [addRef]
  split
  · rename_i h
    simpa using h
  · exact List.mem_append_right _ (List.mem_singleton.mpr rfl)

/-- addRef keeps existing elements. -/
theorem mem_addRef_of_mem {x : String} {l : List String} (y : String) (h : x ∈ l) :
    x ∈ addRef l y := by
  rw [addRef]
  split
  · exact h
  · exact List.mem_append_left _ h

/-- Elements of an addRef result come from the list or are the inserted
element. -/
theorem mem_addRef_inv {x y : String} {l : List String} (h : x ∈ addRef l y) :
    x ∈ l ∨ x = y := by
  rw [addRef] at h
  split at h
  · exact Or.inl h
  · rcases List.mem_append.mp h with h1 | h1
    · exact Or.inl h1
    · exact Or.inr (List.mem_singleton.mp h1)

/-- Folding addRef preserves membership of the accumulator. -/
theorem mem_foldl_addRef {x : String} (l : List String) :
    ∀ {acc : List String}, x ∈ acc → x ∈ l.foldl addRef acc := by
  induction l with
  | nil => intro acc h; exact h
  | cons y ys ih => intro acc h; exact ih (mem_addRef_of_mem y h)

/-- Elements of a folded addRef come from the accumulator or the list. -/
theorem mem_foldl_addRef_inv {x : String} (l : List String) :
    ∀ {acc : List String}, x ∈ l.foldl addRef acc → x ∈ acc ∨ x ∈ l := by
  induction l with
  | nil => intro acc h; exact Or.inl h
  | cons y ys ih =>
    intro acc h
    rcases ih h with h1 | h1
    · rcases mem_addRef_inv h1 with h2 | h2
      · exact Or.inl h2
      · exact Or.inr (h2 ▸ List.mem_cons_self y ys)
    · exact Or.inr (List.mem_cons_of_mem y h1)

/-- Inserting into the sorted list is a permutation of consing. -/
theorem insertDesc_perm (x : RelatedMatch) (l : List RelatedMatch) :
    List.Perm (insertDesc x l) (x :: l) := by
  induction l with
  | nil => exact List.Perm.refl _
  | cons y ys ih =>
    rw [insertDesc]
    split
    · exact List.Perm.refl _
    · exact List.Perm.trans (ih.cons y) (List.Perm.swap x y ys)

/-- The stable sort is a permutation of its input. -/
theorem sortDesc_perm (l : List RelatedMatch) : List.Perm (sortDesc l) l := by
  induction l with
  | nil => exact List.Perm.refl _
  | cons x xs ih => exact List.Perm.trans (insertDesc_perm x (sortDesc xs)) (ih.cons x)

/-- Insertion preserves the descending-by-score pairwise order. -/
theorem insertDesc_pairwise (x : RelatedMatch) {l : List RelatedMatch}
    (h : l.Pairwise (fun a b => b.score ≤ a.score)) :
    (insertDesc x l).Pairwise (fun a b => b.score ≤ a.score) := by
  induction l with
  | nil => simp [insertDesc]
  | cons y ys ih =>
    rw [insertDesc]
    rcases List.pairwise_cons.mp h with ⟨hy, hys⟩
    split
    · rename_i hle
      refine List.pairwise_cons.mpr ⟨?_, h⟩
      intro z hz
      rcases List.mem_cons.mp hz with h1 | h1
      · exact h1 ▸ hle
      · exact le_trans (hy z h1) hle
    · rename_i hgt
      refine List.pairwise_cons.mpr ⟨?_, ih hys⟩
      intro z hz
      rcases List.mem_cons.mp ((insertDesc_perm x ys).mem_iff.mp hz) with h1 | h1
      · exact h1 ▸ Nat.le_of_lt (Nat.lt_of_not_le hgt)
      · exact hy z h1

/-- The stable sort is pairwise descending by score. -/
theorem sortDesc_pairwise (l : List RelatedMatch) :
    (sortDesc l).Pairwise (fun a b => b.score ≤ a.score) := by
  induction l with
  | nil => exact List.Pairwise.nil
  | cons x xs ih => exact insertDesc_pairwise x ih

/-- Insertion does not disturb the subsequence of any fixed score, which is
the stability of the sort. -/
theorem insertDesc_filter_score (s : Nat) (x : RelatedMatch) (l : List RelatedMatch) :
    (insertDesc x l).filter (fun m => decide (m.score = s)) =
      (x :: l).filter (fun m => decide (m.score = s)) := by
  induction l with
  | nil => rfl
  | cons y ys ih =>
    rw [insertDesc]
    split
    · rfl
    · rename_i hgt
      by_cases hx : x.score = s <;> by_cases hy : y.score = s
    
      · exact absurd (hx ▸ hy ▸ le_refl s) hgt
      · simp only [List.filter_cons, decide_eq_true_eq, hx, hy] at ih ⊢
        simp [hx, hy, ih]
      · simp only [List.filter_cons, decide_eq_true_eq, hx, hy] at ih ⊢
        simp [hx, hy, ih]
      · simp only [List.filter_cons, decide_eq_true_eq, hx, hy] at ih ⊢
        simp [hx, hy, ih]

/-- The sort preserves the per-score subsequences of its input. -/
theorem sortDesc_filter_score (s : Nat) (l : List RelatedMatch) :
    (sortDesc l).filter (fun m => decide (m.score = s)) =
      l.filter (fun m => decide (m.score = s)) := by
  induction l with
  | nil => rfl
  | cons x xs ih =>
    calc (insertDesc x (sortDesc xs)).filter (fun m => decide (m.score = s))
        = (x :: sortDesc xs).filter (fun m => decide (m.score = s)) :=
          insertDesc_filter_score s x (sortDesc xs)
      _ = (x :: xs).filter (fun m => decide (m.score = s)) := by
          by_cases hx : x.score = s <;> simp [List.filter_cons, hx, ih]

/-- Every retained candidate clears the threshold of ten. -/
theorem score_gt_of_mem_scoredList {item : DocumentItem} {allItems : List DocumentItem}
    {now : Int} {m : RelatedMatch} (h : m ∈ scoredList item allItems now) : 10 < m.score := by
  rw [scoredList] at h
  obtain ⟨other, _, heq⟩ := List.mem_filterMap.mp h
  rw [scoreCandidate] at heq
  split at heq
  · exact absurd heq (by simp)
  · simp only at heq
    split at heq
    · rename_i hlt
      cases heq
      exact hlt
    · exact absurd heq (by simp)

/-- C2: for every target, corpus, bound and clock, findRelatedDocuments
returns at most maxResults entries, pairwise non-increasing in score,
every returned entry scores strictly above ten, and for each score value
the returned entries of that score form a prefix of the retained
candidates of that score in corpus order, which is the stable-tie
guarantee. -/
theorem findRelatedDocuments_ranked (item : DocumentItem) (allItems : List DocumentItem)
    (maxResults : Nat) (now : Int) :
    (findRelatedDocuments item allItems maxResults now).length ≤ maxResults ∧
    (findRelatedDocuments item allItems maxResults now).Pairwise
      (fun a b => b.score ≤ a.score) ∧
    (∀ m ∈ findRelatedDocuments item allItems maxResults now, 10 < m.score) ∧
    (∀ s : Nat,
      (findRelatedDocuments item allItems maxResults now).filter
          (fun m => decide (m.score = s)) <+:
        (scoredList item allItems now).filter (fun m => decide (m.score = s))) := by
  rw [findRelatedDocuments]
  split
  · exact ⟨by simp, List.Pairwise.nil, by simp, fun s => by simp⟩
  · refine ⟨List.length_take_le _ _, ?_, ?_, ?_⟩
    · exact (sortDesc_pairwise _).sublist (List.take_sublist _ _)
    · intro m hm
      have h1 : m ∈ sortDesc (scoredList item allItems now) :=
        (List.take_sublist _ _).subset hm
      exact score_gt_of_mem_scoredList ((sortDesc_perm _).mem_iff.mp h1)
    · intro s
      have h1 := ( List.take_prefix maxResults
        (sortDesc (scoredList item allItems now))).filter (fun m => decide (m.score = s))
      rwa [sortDesc_filter_score] at h1

/-- Witness for C2 at a concrete corpus: the bound holds and the single
returned match clears the threshold. -/
theorem findRelatedDocuments_ranked_witness :
    (findRelatedDocuments w2item [w2other] 3 0).length ≤ 3 ∧
    10 < (RelatedMatch.mk w2other 16 "related").score :=
  ⟨(findRelatedDocuments_ranked w2item [w2other] 3 0).1,
   (findRelatedDocuments_ranked w2item [w2other] 3 0).2.2.1 _ (by decide)⟩

/-- C5 counterexample: two documents with distinct titles and no URLs are
nevertheless identified by the skip test, because an absent id equals an
absent id under the strict equality; the candidate is dropped although its
score would clear the threshold. -/
theorem findRelated_identity_counterexample :
    (¬ (∀ item other : DocumentItem, item.url = none → other.url = none →
        item.title ≠ other.title → identifiedWithTarget item other = false)) ∧
    (computeScore c5item c5other 0).1 = 17 ∧
    findRelatedDocuments c5item [c5other] 10 0 = [] := by
  refine ⟨?_, by decide, by decide⟩
  intro h
  exact absurd (h c5item c5other rfl rfl (by decide)) (by decide)

/-- C5 amended: the scorer excludes a candidate exactly by strict equality
of ids or of urls, where absent equals absent; titles play no part. Two
documents both lacking ids, or both lacking urls, are always identified;
a candidate whose id and url each differ strictly from the target is
scored, and retained exactly when its score clears the threshold. -/
theorem scoreCandidate_identity (item other : DocumentItem) (now : Int) :
    (item.id = none → other.id = none → scoreCandidate item other now = none) ∧
    (item.url = none → other.url = none → scoreCandidate item other now = none) ∧
    (jsEqOpt other.id item.id = false → jsEqOpt other.url item.url = false →
      (scoreCandidate item other now = none ↔ (computeScore item other now).1 ≤ 10)) := by
  refine ⟨?_, ?_, ?_⟩
  · intro h1 h2
    have hid : identifiedWithTarget item other = true := by
      simp [identifiedWithTarget, jsEqOpt, h1, h2]
    simp [scoreCandidate, hid]
  · intro h1 h2
    have hid : identifiedWithTarget item other = true := by
      simp [identifiedWithTarget, jsEqOpt, h1, h2]
    simp [scoreCandidate, hid]
  · intro h1 h2
    have hid : identifiedWithTarget item other = false := by
      simp [identifiedWithTarget, h1, h2]
    rw [scoreCandidate, hid]
    simp only [Bool.false_eq_true, if_false]
    split
    · rename_i hlt
      constructor
      · intro hc
        exact absurd hc (by simp)
      · intro hle
        omega
    · rename_i hnlt
      constructor
      · intro _
        omega
      · intro _
        rfl

/-- Witness for the amended C5 at concrete documents without ids. -/
theorem scoreCandidate_identity_witness : scoreCandidate c5item c5other 0 = none :=
  (scoreCandidate_identity c5item c5other 0).1 rfl rfl

/-- A candidate hit on the instrument-identifier prefix scores at least
fifty, and ends tagged same-regulation or amendment. -/
theorem computeScore_celexHit (item other : DocumentItem) (now : Int) (a b : String)
    (ha : celexOf item = some a) (hb : celexOf other = some b)
    (hpre : jsSlice a 9 = jsSlice b 9) :
    50 ≤ (computeScore item other now).1 ∧
    ((computeScore item other now).2 = some "same-regulation" ∨
      (computeScore item other now).2 = some "amendment") := by
  simp only [computeScore, ha, hb, hpre, beq_self_eq_true, if_true]
  constructor
  · omega
  · split
    · exact Or.inr rfl
    · split <;> split <;> simp [Option.orElse]

/-- C6 counterexample: a pair of documents sharing the instrument
identifier prefix for which the only returned match is tagged amendment,
not same-regulation: the amendment check overwrites the tag. -/
theorem sameRegulation_tag_counterexample :
    ¬ (∀ (item other : DocumentItem) (corpus : List DocumentItem) (maxResults : Nat)
        (now : Int) (a b : String), other ∈ corpus → celexOf item = some a →
        celexOf other = some b → jsSlice a 9 = jsSlice b 9 →
        ∃ m ∈ findRelatedDocuments item corpus maxResults now,
          m.item = other ∧ m.relationship = "same-regulation" ∧ 50 ≤ m.score) := by
  intro h
  obtain ⟨m, hm, -, hrel, -⟩ :=
    h c6item c6other [c6other] 10 0 "2024/1689" "2024/1689" (List.mem_singleton.mpr rfl)
      (by decide) (by decide) rfl
  rw [show findRelatedDocuments c6item [c6other] 10 0 =
      [⟨c6other, 124, "amendment"⟩] from by decide] at hm
  rw [List.mem_singleton.mp hm] at hrel
  exact absurd hrel (by decide)

/-- C6 amended: when both documents resolve instrument identifiers with
equal nine-character prefixes and the candidate is not identity-excluded,
its score is at least fifty and its tag is same-regulation unless the
amendment check also fires, in which case it is amendment; with the
candidate as the whole corpus and a positive maxResults the match is
returned. -/
theorem sameInstrument_scored (item other : DocumentItem) (now : Int) (a b : String)
    (maxResults : Nat) (ha : celexOf item = some a) (hb : celexOf other = some b)
    (hpre : jsSlice a 9 = jsSlice b 9) (hid : identifiedWithTarget item other = false)
    (hmr : 1 ≤ maxResults) :
    ∃ m, findRelatedDocuments item [other] maxResults now = [m] ∧ m.item = other ∧
      50 ≤ m.score ∧
      (m.relationship = "same-regulation" ∨ m.relationship = "amendment") := by
  obtain ⟨hsc, hrel⟩ := computeScore_celexHit item other now a b ha hb hpre
  have hcand : scoreCandidate item other now =
      some ⟨other, (computeScore item other now).1,
        ((computeScore item other now).2).getD "related"⟩ := by
    rw [scoreCandidate, hid]
    simp only [Bool.false_eq_true, if_false]
    rw [if_pos (by omega)]
  refine ⟨⟨other, (computeScore item other now).1,
    ((computeScore item other now).2).getD "related"⟩, ?_, rfl, hsc, ?_⟩
  · rw [findRelatedDocuments]
    have hsl : scoredList item [other] now =
        [⟨other, (computeScore item other now).1,
          ((computeScore item other now).2).getD "related"⟩] := by
      rw [scoredList]
      simp [hcand]
    simp only [List.isEmpty_cons, if_false]
    rw [hsl]
    cases maxResults with
    | zero => omega
    | succ n => simp [sortDesc, insertDesc]
  · rcases hrel with h | h
    · rw [h]
      exact Or.inl rfl
    · rw [h]
      exact Or.inr rfl

/-- Witness for the amended C6 at the concrete document pair. -/
theorem sameInstrument_scored_witness :
    ∃ m, findRelatedDocuments c6item [c6other] 10 0 = [m] ∧ m.item = c6other ∧
      50 ≤ m.score ∧
      (m.relationship = "same-regulation" ∨ m.relationship = "amendment") :=
  sameInstrument_scored c6item c6other 0 "2024/1689" "2024/1689" 10 (by decide) (by decide)
    rfl (by decide) (by decide)

/-- Length of a slice from zero. -/
theorem jsSlice_length (s : String) (n : Nat) : (jsSlice s n).length = min n s.length := by
  show (s.data.take n).length = min n s.data.length
  exact List.length_take n s.data

/-- Truncation facts of a direct-channel success result. -/
theorem directSuccess_props (t ty : String) (maxLength : Nat) :
    (∀ c, (directSuccess t ty maxLength).content = some c → c.length ≤ maxLength) ∧
    (∀ c n, (directSuccess t ty maxLength).content = some c →
      (directSuccess t ty maxLength).originalLength = some n →
      (((directSuccess t ty maxLength).truncated = some true ↔ (c.length : Int) < n) ∧
       ((directSuccess t ty maxLength).truncated = some true ↔ (maxLength : Int) < n))) := by
  constructor
  · intro c hc
    rw [directSuccess] at hc
    simp only [Option.some_inj] at hc
    rw [← hc, jsSlice_length]
    omega
  · intro c n hc hn
    rw [directSuccess] at hc hn ⊢
    simp only [Option.some_inj] at hc hn
    have hlen : c.length = min maxLength t.length := by rw [← hc, jsSlice_length]
    simp only [Option.some_inj, decide_eq_true_eq]
    omega

/-- The three truncation clauses for a direct-channel success result. -/
theorem directSuccess_full (t ty : String) (maxLength : Nat) (proxy : ProxyResponse) :
    (∀ c, (directSuccess t ty maxLength).content = some c → c.length ≤ maxLength) ∧
    ((directSuccess t ty maxLength).source = some "direct" →
      ∀ c n, (directSuccess t ty maxLength).content = some c →
        (directSuccess t ty maxLength).originalLength = some n →
        (((directSuccess t ty maxLength).truncated = some true ↔ (c.length : Int) < n) ∧
         ((directSuccess t ty maxLength).truncated = some true ↔ (maxLength : Int) < n))) ∧
    ((directSuccess t ty maxLength).source = some "backend" →
      ∃ pc, proxy.content = some pc ∧
        (directSuccess t ty maxLength).truncated = some (decide (maxLength < pc.length)) ∧
        (directSuccess t ty maxLength).originalLength = proxy.originalLength) :=
  ⟨(directSuccess_props t ty maxLength).1,
   fun _ => (directSuccess_props t ty maxLength).2,
   fun hsrc => absurd (Option.some_inj.mp hsrc) (by decide)⟩

/-- C1 amended: every successful result truncates its content to
maxLength; on the direct channel the truncated flag agrees with
originalLength exceeding the content length (equivalently exceeding
maxLength); on the proxy channel the flag compares the proxy-delivered
content against maxLength while originalLength is copied verbatim from
the proxy report, so the flag agrees with the reported originalLength
only when the proxy reports the length of the content it delivered. -/
theorem fetchDocumentContent_truncation (url : Option String) (maxLength : Nat)
    (proxy : ProxyResponse) (env : DirectEnv) (r : ExtractionResult)
    (hok : fetchDocumentContent url maxLength proxy env = .ok r) (hs : r.success = true) :
    (∀ c, r.content = some c → c.length ≤ maxLength) ∧
    (r.source = some "direct" → ∀ c n, r.content = some c → r.originalLength = some n →
      ((r.truncated = some true ↔ (c.length : Int) < n) ∧
       (r.truncated = some true ↔ (maxLength : Int) < n))) ∧
    (r.source = some "backend" → ∃ pc, proxy.content = some pc ∧
      r.truncated = some (decide (maxLength < pc.length)) ∧
      r.originalLength = proxy.originalLength) := by
  rw [fetchDocumentContent] at hok
  split at hok
  · cases hok
    exact absurd hs (by simp [failResult])
  · split at hok
    · split at hok
      · exact Except.noConfusion hok
      · rename_i c hpc
        cases hok
        refine ⟨?_, ?_, ?_⟩
        · intro c0 hc0
          simp only [Option.some_inj] at hc0
          rw [← hc0, jsSlice_length]
          omega
        · intro hsrc
          exact absurd (Option.some_inj.mp hsrc) (by decide)
        · intro _
          exact ⟨c, hpc, rfl, rfl⟩
    · split at hok
      · cases hok
        exact directSuccess_full _ _ _ _
      · split at hok
        · cases hok
          exact absurd hs (by simp [failResult])
        · cases hok
          exact absurd hs (by simp [failResult])
        · cases hok
          exact absurd hs (by simp [failResult])
        · cases hok
          exact absurd hs (by simp [failResult])
        · cases hok
          exact directSuccess_full _ _ _ _
        · cases hok
          exact directSuccess_full _ _ _ _

/-- C1 counterexample: a successful proxy-channel call whose truncated
flag is false although the reported originalLength exceeds both the
returned content length and maxLength, because the proxy channel copies
the reported originalLength while computing the flag from the delivered
content. -/
theorem fetch_truncation_counterexample :
    ¬ (∀ (url : Option String) (maxLength : Nat) (proxy : ProxyResponse) (env : DirectEnv)
        (r : ExtractionResult) (c : String) (n : Int),
        fetchDocumentContent url maxLength proxy env = .ok r → r.success = true →
        r.content = some c → r.originalLength = some n →
        (c.length ≤ maxLength ∧ (r.truncated = some true ↔ (c.length : Int) < n))) := by
  intro h
  obtain ⟨-, hiff⟩ :=
    h (some "http://x") 100 c1proxy { fetch := .abortErr }
      { success := true, content := some "hello", rtype := some "html",
        truncated := some false, originalLength := some 1000, source := some "backend" }
      "hello" 1000 (by rfl) rfl rfl rfl
  exact absurd (hiff.mpr (by decide)) (by decide)

/-- Witness for the amended C1 at a concrete successful proxy response. -/
theorem fetchDocumentContent_truncation_witness : ("hello" : String).length ≤ 100 :=
  (fetchDocumentContent_truncation (some "http://x") 100 c1proxy { fetch := .abortErr }
    { success := true, content := some "hello", rtype := some "html", truncated := some false,
      originalLength := some 1000, source := some "backend" } (by rfl) rfl).1 "hello" rfl

/-- Every channel outcome yields a returned result object, provided a
successful proxy response carries content. -/
theorem fetchDocumentContent_ok (url : Option String) (maxLength : Nat)
    (proxy : ProxyResponse) (env : DirectEnv)
    (hp : proxy.success = true → proxy.content ≠ none) :
    ∃ r, fetchDocumentContent url maxLength proxy env = .ok r := by
  rw [fetchDocumentContent]
  split
  · exact ⟨_, rfl⟩
  · split
    · rename_i hsucc
      cases hpc : proxy.content with
      | none => exact absurd hpc (hp (by simpa using hsucc))
      | some c => exact ⟨_, rfl⟩
    · split
      · exact ⟨_, rfl⟩
      · cases hfe : env.fetch with
        | abortErr => exact ⟨_, rfl⟩
        | netErr m => exact ⟨_, rfl⟩
        | httpErr s => exact ⟨_, rfl⟩
        | pdfResp o =>
          cases o with
          | error m => exact ⟨_, rfl⟩
          | ok t => exact ⟨_, rfl⟩
        | htmlResp raw doc => exact ⟨_, rfl⟩

/-- One context block always builds when the fetcher returns results whose
successes carry content. -/
theorem buildOneDoc_ok (fc : Bool) (mc : Nat) (fetcher : String → Except String ExtractionResult)
    (hf : ∀ u, ∃ r, fetcher u = .ok r ∧ (r.success = true → r.content ≠ none))
    (i : Nat) (m : RelatedMatch) : ∃ out, buildOneDoc fc mc fetcher i m = .ok out := by
  simp only [buildOneDoc]
  split
  · obtain ⟨r, hr, hrc⟩ := hf (m.item.url.getD "")
    simp only [hr]
    by_cases hsucc : r.success = true
    · simp only [hsucc, if_true]
      cases hpc : r.content with
      | none => exact absurd hpc (hrc hsucc)
      | some c => exact ⟨_, rfl⟩
    · rw [if_neg hsucc]
      exact ⟨_, rfl⟩
  · exact ⟨_, rfl⟩

/-- The context loop always builds under the same fetcher condition. -/
theorem buildDocsLoop_ok (fc : Bool) (mc : Nat)
    (fetcher : String → Except String ExtractionResult)
    (hf : ∀ u, ∃ r, fetcher u = .ok r ∧ (r.success = true → r.content ≠ none)) :
    ∀ (docs : List RelatedMatch) (i : Nat),
      ∃ out, buildDocsLoop fc mc fetcher i docs = .ok out := by
  intro docs
  induction docs with
  | nil => intro i; exact ⟨_, rfl⟩
  | cons m ms ih =>
    intro i
    obtain ⟨out1, h1⟩ := buildOneDoc_ok fc mc fetcher hf i m
    obtain ⟨out2, h2⟩ := ih (i + 1)
    rw [buildDocsLoop, h1, h2]
    exact ⟨_, rfl⟩

/-- C3 amended: the pure operations are total functions of this embedding
by construction; extract returns a result object for every channel
outcome provided any successful proxy response carries a content string,
and context building returns whenever its per-document fetches return
results whose successes carry content. The counterexample records the one
violation: a successful proxy response without content makes extract
throw. -/
theorem operations_noThrow :
    (∀ (url : Option String) (maxLength : Nat) (proxy : ProxyResponse) (env : DirectEnv),
      (proxy.success = true → proxy.content ≠ none) →
      ∃ r, fetchDocumentContent url maxLength proxy env = .ok r) ∧
    (∀ (docs : List RelatedMatch) (fc : Bool) (mc : Nat)
        (fetcher : String → Except String ExtractionResult),
      (∀ u, ∃ r, fetcher u = .ok r ∧ (r.success = true → r.content ≠ none)) →
      ∃ out, buildRelatedDocumentsContext docs fc mc fetcher = .ok out) := by
  constructor
  · exact fetchDocumentContent_ok
  · intro docs fc mc fetcher hf
    rw [buildRelatedDocumentsContext]
    split
    · exact ⟨_, rfl⟩
    · obtain ⟨out, hout⟩ := buildDocsLoop_ok fc mc fetcher hf docs 0
      obtain ⟨entries, infos⟩ := out
      rw [hout]
      exact ⟨_, rfl⟩

/-- C3 counterexample: a proxy response of the contract shape with success
set and content absent makes extract throw instead of returning a result
object. -/
theorem extract_noThrow_counterexample :
    ¬ (∀ (url : Option String) (maxLength : Nat) (proxy : ProxyResponse) (env : DirectEnv),
        ∃ r, fetchDocumentContent url maxLength proxy env = .ok r) := by
  intro h
  obtain ⟨r, hr⟩ := h (some "http://x") 100 { success := true } { fetch := .abortErr }
  rw [show fetchDocumentContent (some "http://x") 100 { success := true } { fetch := .abortErr }
      = .error "TypeError: cannot read slice of undefined content" from rfl] at hr
  exact Except.noConfusion hr

/-- Witness for the amended C3 at a concrete failing proxy and aborted
direct fetch. -/
theorem operations_noThrow_witness :
    ∃ r, fetchDocumentContent (some "http://x") 100
      { success := false, isBackendError := true } { fetch := .abortErr } = .ok r :=
  operations_noThrow.1 (some "http://x") 100 { success := false, isBackendError := true }
    { fetch := .abortErr } (fun h => absurd h (by decide))

/-- C7: extractCelexId returns the first match in priority order over its
three patterns, and the two canonical inputs share the nine-character
prefix under the same-instrument comparison. -/
theorem extractCelexId_priority :
    extractCelexId "CELEX:32024R1234" = some "32024R1234" ∧
    extractCelexId "32024R1234(01)" = some "32024R1234(01)" ∧
    jsSlice "32024R1234" 9 = "32024R123" ∧
    jsSlice "32024R1234(01)" 9 = "32024R123" ∧
    (∀ (t : String) (g : List Char), t ≠ "" → scanFirst patCelex1At t.data = some g →
      extractCelexId t = some (⟨g⟩ : String)) ∧
    (∀ (t : String) (g : List Char), t ≠ "" → scanFirst patCelex1At t.data = none →
      scanFirst patCelex2At t.data = some g → extractCelexId t = some (⟨g⟩ : String)) ∧
    (∀ t : String, t ≠ "" → scanFirst patCelex1At t.data = none →
      scanFirst patCelex2At t.data = none →
      extractCelexId t = (scanFirst patCelex3At t.data).map (fun g => (⟨g⟩ : String))) := by
  refine ⟨by decide, by decide, by decide, by decide, ?_, ?_, ?_⟩
  · intro t g ht h1
    rw [extractCelexId, if_neg ht, h1]
    rfl
  · intro t g ht h1 h2
    rw [extractCelexId, if_neg ht, h1, h2]
    rfl
  · intro t ht h1 h2
    rw [extractCelexId, if_neg ht, h1, h2]
    rfl

/-- Witness for C7 at a further concrete explicit-marker input. -/
theorem extractCelexId_priority_witness :
    extractCelexId "CELEX:32019L0790" = some "32019L0790" :=
  extractCelexId_priority.2.2.2.2.1 "CELEX:32019L0790" "32019L0790".data (by decide) (by decide)

/-- The acronym fold keeps existing members. -/
theorem mem_acronymFold_mono {t x : String} :
    ∀ (entries : List (String × String)) {acc : List String}, x ∈ acc →
      x ∈ entries.foldl
        (fun acc2 pr => if strIncludes t pr.1 then addRef acc2 pr.2 else acc2) acc := by
  intro entries
  induction entries with
  | nil => intro acc h; exact h
  | cons e es ih =>
    intro acc h
    simp only [List.foldl_cons]
    apply ih
    split
    · exact mem_addRef_of_mem _ h
    · exact h

/-- A dictionary hit puts its expansion into the acronym fold. -/
theorem mem_acronymFold {t : String} :
    ∀ (entries : List (String × String)) (acc : List String) (acr exp : String),
      (acr, exp) ∈ entries → strIncludes t acr = true →
      exp ∈ entries.foldl
        (fun acc2 pr => if strIncludes t pr.1 then addRef acc2 pr.2 else acc2) acc := by
  intro entries
  induction entries with
  | nil => intro acc acr exp h _; exact absurd h (List.not_mem_nil _)
  | cons e es ih =>
    intro acc acr exp h hinc
    simp only [List.foldl_cons]
    rcases List.mem_cons.mp h with h1 | h1
    · cases h1
      rw [if_pos hinc]
      exact mem_acronymFold_mono es (mem_addRef_self _ _)
    · exact ih _ acr exp h1 hinc

/-- C8: the empty string yields no references, and every text containing a
dictionary acronym as a literal substring yields its expansion. -/
theorem extractLegalReferences_acronyms :
    extractLegalReferences "" = [] ∧
    (∀ (t acr exp : String), (acr, exp) ∈ acronymsList → strIncludes t acr = true →
      exp ∈ extractLegalReferences t) := by
  refine ⟨rfl, ?_⟩
  intro t acr exp hmem hinc
  have ht : t ≠ "" := by
    intro he
    subst he
    fin_cases hmem <;> exact absurd hinc (by decide)
  rw [extractLegalReferences, if_neg ht, acronymPhase]
  exact mem_acronymFold acronymsList _ acr exp hmem hinc

/-- Witness for C8 at a concrete text containing DORA. -/
theorem extractLegalReferences_acronyms_witness :
    "Regulation (EU) 2022/2554" ∈ extractLegalReferences "DORA applies" :=
  extractLegalReferences_acronyms.2 "DORA applies" "DORA" "Regulation (EU) 2022/2554"
    (by decide) (by decide)
/-- Data of a constructed string. -/
theorem data_mk (l : List Char) : (⟨l⟩ : String).data = l := rfl

/-- Lowercased characters are never uppercase ASCII. -/
theorem jsCharLower_not_upper (c : Char) : isUpperCh (jsCharLower c) = false := by
  rw [jsCharLower]
  split
  · rename_i h
    rw [isUpperCh] at h
    simp only [Bool.and_eq_true, decide_eq_true_eq] at h
    obtain ⟨h1, h2⟩ := h
    set n := c.toNat with hn
    interval_cases n <;> decide
  · rename_i h
    simpa using h

/-- Characters of a matching prefix belong to the haystack. -/
theorem isPfxOf_mem : ∀ {nd hay : List Char}, isPfxOf nd hay = true → ∀ c ∈ nd, c ∈ hay := by
  intro nd
  induction nd with
  | nil => intro hay _ c hc; exact absurd hc (List.not_mem_nil c)
  | cons p ps ih =>
    intro hay h c hc
    cases hay with
    | nil => exact absurd h (by simp [isPfxOf])
    | cons b bs =>
      rw [isPfxOf] at h
      simp only [Bool.and_eq_true, beq_iff_eq] at h
      obtain ⟨h1, h2⟩ := h
      rcases List.mem_cons.mp hc with h3 | h3
      · subst h3
        rw [h1]
        exact List.mem_cons_self b bs
      · exact List.mem_cons_of_mem b (ih h2 c h3)

/-- Characters of a matching substring belong to the haystack. -/
theorem isInfixOfChars_mem :
    ∀ (hay nd : List Char), isInfixOfChars nd hay = true → ∀ c ∈ nd, c ∈ hay := by
  intro hay
  induction hay with
  | nil =>
    intro nd h c hc
    cases nd with
    | nil => exact absurd hc (List.not_mem_nil c)
    | cons a as => exact absurd h (by simp [isInfixOfChars, isPfxOf])
  | cons b bs ih =>
    intro nd h c hc
    rw [isInfixOfChars] at h
    simp only [Bool.or_eq_true] at h
    rcases h with h1 | h1
    · exact isPfxOf_mem h1 c hc
    · exact List.mem_cons_of_mem b (ih nd h1 c hc)

/-- A needle containing an uppercase character never occurs in a
lowercased text under the case-sensitive includes. -/
theorem strIncludes_lower_false (s acr : String) (u : Char) (hu : u ∈ acr.data)
    (hup : isUpperCh u = true) : strIncludes (jsToLower s) acr = false := by
  cases h : strIncludes (jsToLower s) acr
  · rfl
  · exfalso
    have hmem : u ∈ (jsToLower s).data := isInfixOfChars_mem _ _ h u hu
    rw [jsToLower, data_mk] at hmem
    obtain ⟨c, -, hc⟩ := List.mem_map.mp hmem
    rw [← hc, jsCharLower_not_upper] at hup
    exact Bool.false_ne_true hup

/-- The acronym phase is the identity when no dictionary entry hits. -/
theorem acronymFold_id {t : String}
    (h : ∀ pr ∈ acronymsList, strIncludes t pr.1 = false) (acc : List String) :
    acronymPhase t acc = acc := by
  rw [acronymPhase]
  have hgen : ∀ (entries : List (String × String)),
      (∀ pr ∈ entries, strIncludes t pr.1 = false) → ∀ acc2 : List String,
      entries.foldl (fun acc3 pr => if strIncludes t pr.1 then addRef acc3 pr.2 else acc3)
        acc2 = acc2 := by
    intro entries
    induction entries with
    | nil => intro _ acc2; rfl
    | cons e es ih =>
      intro he acc2
      simp only [List.foldl_cons, he e (List.mem_cons_self e es), Bool.false_eq_true, if_false]
      exact ih (fun pr hpr => he pr (List.mem_cons_of_mem e hpr)) acc2
  exact hgen acronymsList h acc

/-- The acronym phase adds nothing on lowercased text: every dictionary
acronym contains an uppercase character. -/
theorem acronymPhase_lower_id (s : String) (acc : List String) :
    acronymPhase (jsToLower s) acc = acc := by
  apply acronymFold_id
  intro pr hpr
  fin_cases hpr
  · exact strIncludes_lower_false s "GDPR" 'G' (by decide) (by decide)
  · exact strIncludes_lower_false s "DSA" 'D' (by decide) (by decide)
  · exact strIncludes_lower_false s "DMA" 'D' (by decide) (by decide)
  · exact strIncludes_lower_false s "AI Act" 'A' (by decide) (by decide)
  · exact strIncludes_lower_false s "MiCA" 'M' (by decide) (by decide)
  · exact strIncludes_lower_false s "DORA" 'D' (by decide) (by decide)
  · exact strIncludes_lower_false s "ePrivacy" 'P' (by decide) (by decide)
  · exact strIncludes_lower_false s "NIS2" 'N' (by decide) (by decide)
  · exact strIncludes_lower_false s "CRA" 'C' (by decide) (by decide)
  · exact strIncludes_lower_false s "Data Act" 'D' (by decide) (by decide)
  · exact strIncludes_lower_false s "MiFID II" 'M' (by decide) (by decide)
  · exact strIncludes_lower_false s "MiFIR" 'M' (by decide) (by decide)

/-- Digit runs satisfy the group character shape. -/
theorem all_digitSlash_of_digits {l : List Char} (h : l.all isDigitCh = true) :
    l.all digitSlash = true := by
  rw [List.all_eq_true] at h ⊢
  intro c hc
  simp [digitSlash, h c hc]

/-- The exact digit eater returns digits. -/
theorem eatDigitsN_digits {n : Nat} {l d r : List Char} (h : eatDigitsN n l = some (d, r)) :
    d.all isDigitCh = true := by
  rw [eatDigitsN] at h
  split at h
  · rename_i hcond
    simp only [Bool.and_eq_true] at hcond
    cases h
    exact hcond.2
  · exact Option.noConfusion h

/-- The greedy digit eater returns digits. -/
theorem eatDigitsPlus_digits {l d r : List Char} (h : eatDigitsPlus l = some (d, r)) :
    d.all isDigitCh = true := by
  rw [eatDigitsPlus] at h
  split at h
  · exact Option.noConfusion h
  · cases h
    exact List.all_takeWhile

/-- The first numeric group shape captures digits and one slash. -/
theorem numG4slashPlus_shape {l g r : List Char} (h : numG4slashPlus l = some (g, r)) :
    g.all digitSlash = true := by
  rw [numG4slashPlus] at h
  split at h
  · rename_i d4 y heq
    split at h
    · rename_i ds r2 heq2
      cases h
      have h1 := all_digitSlash_of_digits (eatDigitsN_digits heq)
      have h2 := all_digitSlash_of_digits (eatDigitsPlus_digits heq2)
      simp [List.all_append, h1, h2, digitSlash]
    · exact Option.noConfusion h
  · exact Option.noConfusion h

/-- The second numeric group shape captures digits and one slash. -/
theorem numGplusSlash4_shape {l g r : List Char} (h : numGplusSlash4 l = some (g, r)) :
    g.all digitSlash = true := by
  rw [numGplusSlash4] at h
  split at h
  · rename_i run y heq
    split at h
    · rename_i d4 r2 heq2
      cases h
      have h1 := all_digitSlash_of_digits (eatDigitsPlus_digits heq)
      have h2 := all_digitSlash_of_digits (eatDigitsN_digits heq2)
      simp [List.all_append, h1, h2, digitSlash]
    · exact Option.noConfusion h
  · exact Option.noConfusion h

/-- The alternation of the numeric groups captures digits and a slash. -/
theorem numAlt_shape {l g r : List Char} (h : numAlt l = some (g, r)) :
    g.all digitSlash = true := by
  rw [numAlt] at h
  cases hx : numG4slashPlus l with
  | some v =>
    rw [hx] at h
    simp only [Option.orElse] at h
    cases h
    exact numG4slashPlus_shape hx
  | none =>
    rw [hx] at h
    simp only [Option.orElse] at h
    exact numGplusSlash4_shape h

/-- The optional No group does not change the capture shape. -/
theorem groupAfterNo_shape {gp : List Char → Option (List Char × List Char)}
    (hg : ∀ {l2 g2 r2 : List Char}, gp l2 = some (g2, r2) → g2.all digitSlash = true)
    {l g r : List Char} (h : groupAfterNo gp l = some (g, r)) : g.all digitSlash = true := by
  rw [groupAfterNo] at h
  split at h
  · rename_i r9 heq
    cases hx : gp r9 with
    | some v =>
      rw [hx] at h
      simp only [Option.orElse] at h
      cases h
      exact hg hx
    | none =>
      rw [hx] at h
      simp only [Option.orElse] at h
      exact hg h
  · exact hg h

/-- Captures of the first regulation pattern are numeric. -/
theorem patReg1At_shape {l g r : List Char} (h : patReg1At l = some (g, r)) :
    g.all digitSlash = true := by
  rw [patReg1At] at h
  split at h
  · split at h
    · exact groupAfterNo_shape numAlt_shape h
    · exact Option.noConfusion h
  · exact Option.noConfusion h

/-- Captures of the second regulation pattern are numeric. -/
theorem patReg2At_shape {l g r : List Char} (h : patReg2At l = some (g, r)) :
    g.all digitSlash = true := by
  rw [patReg2At] at h
  split at h
  · split at h
    · exact numG4slashPlus_shape h
    · exact Option.noConfusion h
  · exact Option.noConfusion h

/-- Captures of the third regulation pattern are numeric. -/
theorem patReg3At_shape {l g r : List Char} (h : patReg3At l = some (g, r)) :
    g.all digitSlash = true := by
  rw [patReg3At] at h
  split at h
  · exact groupAfterNo_shape numGplusSlash4_shape h
  · exact Option.noConfusion h

/-- Captures of the first directive pattern are numeric. -/
theorem patDir1At_shape {l g r : List Char} (h : patDir1At l = some (g, r)) :
    g.all digitSlash = true := by
  rw [patDir1At] at h
  split at h
  · split at h
    · exact groupAfterNo_shape numAlt_shape h
    · exact Option.noConfusion h
  · exact Option.noConfusion h

/-- Captures of the second directive pattern are numeric. -/
theorem patDir2At_shape {l g r : List Char} (h : patDir2At l = some (g, r)) :
    g.all digitSlash = true := by
  rw [patDir2At] at h
  split at h
  · exact numG4slashPlus_shape h
  · exact Option.noConfusion h

/-- Every capture of a global scan has the shape its matcher yields. -/
theorem scanAllF_shape {p : List Char → Option (List Char × List Char)}
    (hp : ∀ {l2 g2 r2 : List Char}, p l2 = some (g2, r2) → g2.all digitSlash = true) :
    ∀ (fuel : Nat) (l g : List Char), g ∈ scanAllF p fuel l → g.all digitSlash = true := by
  intro fuel
  induction fuel with
  | zero => intro l g h; exact absurd h (List.not_mem_nil g)
  | succ n ih =>
    intro l g h
    cases l with
    | nil =>
      rw [scanAllF] at h
      split at h
      · rename_i heq
        rw [List.mem_singleton.mp h]
        exact hp heq
      · exact absurd h (List.not_mem_nil g)
    | cons c cs =>
      rw [scanAllF] at h
      split at h
      · rename_i heq
        rcases List.mem_cons.mp h with h1 | h1
        · subst h1
          exact hp heq
        · exact ih _ _ h1
      · exact ih _ _ h

/-- A list is a prefix of itself with anything appended. -/
theorem isPfxOf_append (p l : List Char) : isPfxOf p (p ++ l) = true := by
  induction p with
  | nil => rfl
  | cons a as ih => simp [isPfxOf, ih]

/-- Normalised regulation references have the numeric shape. -/
theorem refShape_reg {g : List Char} (hg : g.all digitSlash = true) :
    refShape ("Regulation " ++ (⟨g⟩ : String)) = true := by
  rw [refShape]
  have hdata : ("Regulation " ++ (⟨g⟩ : String)).data = "Regulation ".data ++ g := by
    rw [String.data_append, data_mk]
  rw [hdata]
  have h11 : ("Regulation ".data ++ g).drop 11 = g := by
    have hlen : ("Regulation ".data).length = 11 := by decide
    rw [← hlen, List.drop_left]
  rw [h11, isPfxOf_append]
  simp [hg]

/-- Normalised directive references have the numeric shape. -/
theorem refShape_dir {g : List Char} (hg : g.all digitSlash = true) :
    refShape ("Directive " ++ (⟨g⟩ : String)) = true := by
  rw [refShape]
  have hdata : ("Directive " ++ (⟨g⟩ : String)).data = "Directive ".data ++ g := by
    rw [String.data_append, data_mk]
  rw [hdata]
  have h10 : ("Directive ".data ++ g).drop 10 = g := by
    have hlen : ("Directive ".data).length = 10 := by decide
    rw [← hlen, List.drop_left]
  rw [h10, isPfxOf_append]
  simp [hg]

/-- Every regulation-pattern reference has the numeric shape. -/
theorem regMatches_shape {t x : String} (h : x ∈ regMatches t) : refShape x = true := by
  rw [regMatches] at h
  obtain ⟨g, hg, rfl⟩ := List.mem_map.mp h
  apply refShape_reg
  rcases List.mem_append.mp hg with h1 | h1
  · rcases List.mem_append.mp h1 with h2 | h2
    · rw [scanAll] at h2
      exact scanAllF_shape patReg1At_shape _ _ _ h2
    · rw [scanAll] at h2
      exact scanAllF_shape patReg2At_shape _ _ _ h2
  · rw [scanAll] at h1
    exact scanAllF_shape patReg3At_shape _ _ _ h1

/-- Every directive-pattern reference has the numeric shape. -/
theorem dirMatches_shape {t x : String} (h : x ∈ dirMatches t) : refShape x = true := by
  rw [dirMatches] at h
  obtain ⟨g, hg, rfl⟩ := List.mem_map.mp h
  apply refShape_dir
  rcases List.mem_append.mp hg with h1 | h1
  · rw [scanAll] at h1
    exact scanAllF_shape patDir1At_shape _ _ _ h1
  · rw [scanAll] at h1
    exact scanAllF_shape patDir2At_shape _ _ _ h1

/-- Every reference of the pattern phase has the numeric shape. -/
theorem regDirPhase_shape {t x : String} (h : x ∈ regDirPhase t) : refShape x = true := by
  rw [regDirPhase] at h
  rcases mem_foldl_addRef_inv _ h with h1 | h1
  · exact absurd h1 (List.not_mem_nil x)
  · rcases List.mem_append.mp h1 with h2 | h2
    · exact regMatches_shape h2
    · exact dirMatches_shape h2

/-- C10: on the lowercased item texts the scorer feeds to
extractLegalReferences, the acronym dictionary never fires, so every
reference entering the cross-reference and amendment bonuses is a
Regulation or Directive number reference and never an acronym
expansion. -/
theorem scorer_refs_no_acronyms (item : DocumentItem) (r : String)
    (h : r ∈ extractLegalReferences (itemTextOf item)) :
    refShape r = true ∧ ∀ pr ∈ acronymsList, r ≠ pr.2 := by
  rw [itemTextOf, extractLegalReferences] at h
  split at h
  · exact absurd h (List.not_mem_nil r)
  · rw [acronymPhase_lower_id] at h
    have hshape : refShape r = true := regDirPhase_shape h
    refine ⟨hshape, ?_⟩
    intro pr hpr heq
    rw [heq] at hshape
    fin_cases hpr <;> exact absurd hshape (by decide)

/-- Witness for C10 at a concrete item whose text yields a reference. -/
theorem scorer_refs_no_acronyms_witness :
    refShape "Regulation 2016/679" = true ∧
      ∀ pr ∈ acronymsList, "Regulation 2016/679" ≠ pr.2 :=
  scorer_refs_no_acronyms w10item "Regulation 2016/679" (by decide)

/-- Heading-group entries are headings. -/
theorem headingSecs_shape {m : Node} {x : Section} (h : x ∈ headingSecs m) :
    isHeadingSec x = true := by
  rw [headingSecs] at h
  obtain ⟨e, -, he⟩ := List.mem_filterMap.mp h
  simp only at he
  split at he
  · cases he
    rfl
  · exact Option.noConfusion he

/-- Paragraph-group entries are paragraphs. -/
theorem paraSecs_shape {m : Node} {x : Section} (h : x ∈ paraSecs m) : isParaSec x = true := by
  rw [paraSecs] at h
  obtain ⟨e, -, he⟩ := List.mem_filterMap.mp h
  simp only at he
  split at he
  · cases he
    rfl
  · exact Option.noConfusion he

/-- List-item-group entries are list items. -/
theorem liSecs_shape {m : Node} {x : Section} (h : x ∈ liSecs m) : isLiSec x = true := by
  rw [liSecs] at h
  obtain ⟨e, -, he⟩ := List.mem_filterMap.mp h
  simp only at he
  split at he
  · cases he
    rfl
  · exact Option.noConfusion he

/-- Table-group entries are tables. -/
theorem tableSecs_shape {m : Node} {x : Section} (h : x ∈ tableSecs m) :
    isTableSec x = true := by
  rw [tableSecs] at h
  obtain ⟨e, -, he⟩ := List.mem_filterMap.mp h
  simp only at he
  split at he
  · cases he
    rfl
  · exact Option.noConfusion he

/-- The paragraph subsequence of the emitted stream is the paragraph
group. -/
theorem sectionsOf_filter_para (m : Node) : (sectionsOf m).filter isParaSec = paraSecs m := by
  rw [sectionsOf, List.filter_append, List.filter_append, List.filter_append]
  have h1 : (headingSecs m).filter isParaSec = [] := by
    rw [List.filter_eq_nil_iff]
    intro x hx
    have := headingSecs_shape hx
    cases x <;> simp_all [isHeadingSec, isParaSec]
  have h2 : (paraSecs m).filter isParaSec = paraSecs m := by
    rw [List.filter_eq_self]
    intro x hx
    exact paraSecs_shape hx
  have h3 : (liSecs m).filter isParaSec = [] := by
    rw [List.filter_eq_nil_iff]
    intro x hx
    have := liSecs_shape hx
    cases x <;> simp_all [isLiSec, isParaSec]
  have h4 : (tableSecs m).filter isParaSec = [] := by
    rw [List.filter_eq_nil_iff]
    intro x hx
    have := tableSecs_shape hx
    cases x <;> simp_all [isTableSec, isParaSec]
  rw [h1, h2, h3, h4]
  simp

/-- The list-item subsequence of the emitted stream is the list-item
group. -/
theorem sectionsOf_filter_li (m : Node) : (sectionsOf m).filter isLiSec = liSecs m := by
  rw [sectionsOf, List.filter_append, List.filter_append, List.filter_append]
  have h1 : (headingSecs m).filter isLiSec = [] := by
    rw [List.filter_eq_nil_iff]
    intro x hx
    have := headingSecs_shape hx
    cases x <;> simp_all [isHeadingSec, isLiSec]
  have h2 : (paraSecs m).filter isLiSec = [] := by
    rw [List.filter_eq_nil_iff]
    intro x hx
    have := paraSecs_shape hx
    cases x <;> simp_all [isParaSec, isLiSec]
  have h3 : (liSecs m).filter isLiSec = liSecs m := by
    rw [List.filter_eq_self]
    intro x hx
    exact liSecs_shape hx
  have h4 : (tableSecs m).filter isLiSec = [] := by
    rw [List.filter_eq_nil_iff]
    intro x hx
    have := tableSecs_shape hx
    cases x <;> simp_all [isTableSec, isLiSec]
  rw [h1, h2, h3, h4]
  simp

/-- The paragraph group keeps exactly the trimmed texts of length
strictly above twenty. -/
theorem paraSecs_eq (m : Node) :
    paraSecs m = (((queryTags m ["p"]).map (fun e => jsTrim (textContentN e))).filter
      (fun t => decide (20 < t.length))).map Section.para := by
  rw [paraSecs]
  induction (queryTags m ["p"]) with
  | nil => rfl
  | cons e es ih =>
    simp only [List.filterMap_cons, List.map_cons, List.filter_cons]
    by_cases h20 : 20 < (jsTrim (textContentN e)).length
    · have hne : jsTrim (textContentN e) ≠ "" := by
        intro he
        rw [he] at h20
        exact absurd h20 (by decide)
      simp [h20, hne] at ih ⊢
      exact ih
    · simp [h20] at ih ⊢
      exact ih

/-- The list-item group keeps exactly the trimmed texts of length
strictly above ten. -/
theorem liSecs_eq (m : Node) :
    liSecs m = (((queryTags m ["li"]).map (fun e => jsTrim (textContentN e))).filter
      (fun t => decide (10 < t.length))).map Section.listItem := by
  rw [liSecs]
  induction (queryTags m ["li"]) with
  | nil => rfl
  | cons e es ih =>
    simp only [List.filterMap_cons, List.map_cons, List.filter_cons]
    by_cases h10 : 10 < (jsTrim (textContentN e)).length
    · have hne : jsTrim (textContentN e) ≠ "" := by
        intro he
        rw [he] at h10
        exact absurd h10 (by decide)
      simp [h10, hne] at ih ⊢
      exact ih
    · simp [h10] at ih ⊢
      exact ih

/-- The heading subsequence of the emitted stream is the heading group. -/
theorem sectionsOf_filter_heading (m : Node) :
    (sectionsOf m).filter isHeadingSec = headingSecs m := by
  rw [sectionsOf, List.filter_append, List.filter_append, List.filter_append]
  have h1 : (headingSecs m).filter isHeadingSec = headingSecs m := by
    rw [List.filter_eq_self]
    intro x hx
    exact headingSecs_shape hx
  have h2 : (paraSecs m).filter isHeadingSec = [] := by
    rw [List.filter_eq_nil_iff]
    intro x hx
    have := paraSecs_shape hx
    cases x <;> simp_all [isParaSec, isHeadingSec]
  have h3 : (liSecs m).filter isHeadingSec = [] := by
    rw [List.filter_eq_nil_iff]
    intro x hx
    have := liSecs_shape hx
    cases x <;> simp_all [isLiSec, isHeadingSec]
  have h4 : (tableSecs m).filter isHeadingSec = [] := by
    rw [List.filter_eq_nil_iff]
    intro x hx
    have := tableSecs_shape hx
    cases x <;> simp_all [isTableSec, isHeadingSec]
  rw [h1, h2, h3, h4]
  simp

/-- The table subsequence of the emitted stream is the table group. -/
theorem sectionsOf_filter_table (m : Node) :
    (sectionsOf m).filter isTableSec = tableSecs m := by
  rw [sectionsOf, List.filter_append, List.filter_append, List.filter_append]
  have h1 : (headingSecs m).filter isTableSec = [] := by
    rw [List.filter_eq_nil_iff]
    intro x hx
    have := headingSecs_shape hx
    cases x <;> simp_all [isHeadingSec, isTableSec]
  have h2 : (paraSecs m).filter isTableSec = [] := by
    rw [List.filter_eq_nil_iff]
    intro x hx
    have := paraSecs_shape hx
    cases x <;> simp_all [isParaSec, isTableSec]
  have h3 : (liSecs m).filter isTableSec = [] := by
    rw [List.filter_eq_nil_iff]
    intro x hx
    have := liSecs_shape hx
    cases x <;> simp_all [isLiSec, isTableSec]
  have h4 : (tableSecs m).filter isTableSec = tableSecs m := by
    rw [List.filter_eq_self]
    intro x hx
    exact tableSecs_shape hx
  rw [h1, h2, h3, h4]
  simp

/-- Heading tags are recognised tags. -/
theorem all_of_h {s : String} (h : headingTags.contains s = true) :
    allKindTags.contains s = true := by
  have h2 : s ∈ headingTags := by simpa using h
  have h3 : s ∈ allKindTags := List.mem_append_left _ h2
  simpa using h3

/-- The paragraph tag test pins the tag. -/
theorem eq_p {s : String} (h : List.contains ["p"] s = true) : s = "p" := by
  simpa using h

/-- The list-item tag test pins the tag. -/
theorem eq_li {s : String} (h : List.contains ["li"] s = true) : s = "li" := by
  simpa using h

/-- The table tag test pins the tag. -/
theorem eq_table {s : String} (h : List.contains ["table"] s = true) : s = "table" := by
  simpa using h

/-- The paragraph tag is recognised. -/
theorem all_of_p {s : String} (h : List.contains ["p"] s = true) :
    allKindTags.contains s = true := by
  rw [eq_p h]
  decide

/-- The list-item tag is recognised. -/
theorem all_of_li {s : String} (h : List.contains ["li"] s = true) :
    allKindTags.contains s = true := by
  rw [eq_li h]
  decide

/-- The table tag is recognised. -/
theorem all_of_table {s : String} (h : List.contains ["table"] s = true) :
    allKindTags.contains s = true := by
  rw [eq_table h]
  decide

/-- On heading tags the classifier is the heading rule. -/
theorem classify_h {e : Node} (h : headingTags.contains (tagOf e) = true) :
    classifyElem e =
      (let t := jsTrim (textContentN e)
       if t ≠ "" then some (.heading (hLevel (tagOf e)) t) else none) := by
  rw [classifyElem, if_pos h]

/-- On the paragraph tag the classifier is the paragraph rule. -/
theorem classify_p {e : Node} (h : List.contains ["p"] (tagOf e) = true) :
    classifyElem e =
      (let t := jsTrim (textContentN e)
       if t ≠ "" && 20 < t.length then some (.para t) else none) := by
  have hh : headingTags.contains (tagOf e) = false := by
    rw [eq_p h]
    decide
  rw [classifyElem, if_neg (by rw [hh]; exact Bool.false_ne_true), if_pos h]

/-- On the list-item tag the classifier is the list-item rule. -/
theorem classify_li {e : Node} (h : List.contains ["li"] (tagOf e) = true) :
    classifyElem e =
      (let t := jsTrim (textContentN e)
       if t ≠ "" && 10 < t.length then some (.listItem t) else none) := by
  have hh : headingTags.contains (tagOf e) = false := by
    rw [eq_li h]
    decide
  have hp : List.contains ["p"] (tagOf e) = false := by
    rw [eq_li h]
    decide
  rw [classifyElem, if_neg (by rw [hh]; exact Bool.false_ne_true), if_neg (by rw [hp]; exact Bool.false_ne_true), if_pos h]

/-- On the table tag the classifier is the table rule. -/
theorem classify_table {e : Node} (h : List.contains ["table"] (tagOf e) = true) :
    classifyElem e =
      (let rows := tableRows e
       if rows.length > 0 then some (.table (joinSep "\n" rows)) else none) := by
  have hh : headingTags.contains (tagOf e) = false := by
    rw [eq_table h]
    decide
  have hp : List.contains ["p"] (tagOf e) = false := by
    rw [eq_table h]
    decide
  have hl : List.contains ["li"] (tagOf e) = false := by
    rw [eq_table h]
    decide
  rw [classifyElem, if_neg (by rw [hh]; exact Bool.false_ne_true), if_neg (by rw [hp]; exact Bool.false_ne_true), if_neg (by rw [hl]; exact Bool.false_ne_true),
    if_pos h]

/-- Classifications of heading-tagged elements are headings. -/
theorem classify_pos_h {e : Node} {sec : Section} (h : headingTags.contains (tagOf e) = true)
    (hc : classifyElem e = some sec) : isHeadingSec sec = true := by
  rw [classify_h h] at hc
  simp only at hc
  split at hc
  · cases hc
    rfl
  · exact Option.noConfusion hc

/-- Classifications of paragraph-tagged elements are paragraphs. -/
theorem classify_pos_p {e : Node} {sec : Section} (h : List.contains ["p"] (tagOf e) = true)
    (hc : classifyElem e = some sec) : isParaSec sec = true := by
  rw [classify_p h] at hc
  simp only at hc
  split at hc
  · cases hc
    rfl
  · exact Option.noConfusion hc

/-- Classifications of list-item-tagged elements are list items. -/
theorem classify_pos_li {e : Node} {sec : Section} (h : List.contains ["li"] (tagOf e) = true)
    (hc : classifyElem e = some sec) : isLiSec sec = true := by
  rw [classify_li h] at hc
  simp only at hc
  split at hc
  · cases hc
    rfl
  · exact Option.noConfusion hc

/-- Classifications of table-tagged elements are tables. -/
theorem classify_pos_table {e : Node} {sec : Section}
    (h : List.contains ["table"] (tagOf e) = true) (hc : classifyElem e = some sec) :
    isTableSec sec = true := by
  rw [classify_table h] at hc
  simp only at hc
  split at hc
  · cases hc
    rfl
  · exact Option.noConfusion hc

/-- Elements without a heading tag never classify as headings. -/
theorem classify_not_h {e : Node} {sec : Section}
    (h : headingTags.contains (tagOf e) = false) (hc : classifyElem e = some sec) :
    isHeadingSec sec = false := by
  rw [classifyElem, if_neg (by rw [h]; exact Bool.false_ne_true)] at hc
  split at hc
  · simp only at hc
    split at hc
    · cases hc
      rfl
    · exact Option.noConfusion hc
  · split at hc
    · simp only at hc
      split at hc
      · cases hc
        rfl
      · exact Option.noConfusion hc
    · split at hc
      · simp only at hc
        split at hc
        · cases hc
          rfl
        · exact Option.noConfusion hc
      · exact Option.noConfusion hc

/-- Elements without the paragraph tag never classify as paragraphs. -/
theorem classify_not_p {e : Node} {sec : Section}
    (h : List.contains ["p"] (tagOf e) = false) (hc : classifyElem e = some sec) :
    isParaSec sec = false := by
  rw [classifyElem] at hc
  split at hc
  · simp only at hc
    split at hc
    · cases hc
      rfl
    · exact Option.noConfusion hc
  · rw [if_neg (by rw [h]; exact Bool.false_ne_true)] at hc
    split at hc
    · simp only at hc
      split at hc
      · cases hc
        rfl
      · exact Option.noConfusion hc
    · split at hc
      · simp only at hc
        split at hc
        · cases hc
          rfl
        · exact Option.noConfusion hc
      · exact Option.noConfusion hc

/-- Elements without the list-item tag never classify as list items. -/
theorem classify_not_li {e : Node} {sec : Section}
    (h : List.contains ["li"] (tagOf e) = false) (hc : classifyElem e = some sec) :
    isLiSec sec = false := by
  rw [classifyElem] at hc
  split at hc
  · simp only at hc
    split at hc
    · cases hc
      rfl
    · exact Option.noConfusion hc
  · split at hc
    · simp only at hc
      split at hc
      · cases hc
        rfl
      · exact Option.noConfusion hc
    · rw [if_neg (by rw [h]; exact Bool.false_ne_true)] at hc
      split at hc
      · simp only at hc
        split at hc
        · cases hc
          rfl
        · exact Option.noConfusion hc
      · exact Option.noConfusion hc

/-- Elements without the table tag never classify as tables. -/
theorem classify_not_table {e : Node} {sec : Section}
    (h : List.contains ["table"] (tagOf e) = false) (hc : classifyElem e = some sec) :
    isTableSec sec = false := by
  rw [classifyElem] at hc
  split at hc
  · simp only at hc
    split at hc
    · cases hc
      rfl
    · exact Option.noConfusion hc
  · split at hc
    · simp only at hc
      split at hc
      · cases hc
        rfl
      · exact Option.noConfusion hc
    · split at hc
      · simp only at hc
        split at hc
        · cases hc
          rfl
        · exact Option.noConfusion hc
      · rw [if_neg (by rw [h]; exact Bool.false_ne_true)] at hc
        exact Option.noConfusion hc

/-- Restricting the document-order classification to one kind yields that
kind-group in document order. -/
theorem specOrder_filter_kind (kt : List String) (isK : Section → Bool)
    (f : Node → Option Section)
    (hsub : ∀ s, kt.contains s = true → allKindTags.contains s = true)
    (hcls : ∀ e : Node, kt.contains (tagOf e) = true → classifyElem e = f e)
    (hpos : ∀ (e : Node) (sec : Section), kt.contains (tagOf e) = true →
      classifyElem e = some sec → isK sec = true)
    (hneg : ∀ (e : Node) (sec : Section), kt.contains (tagOf e) = false →
      classifyElem e = some sec → isK sec = false) :
    ∀ l : List Node,
      ((l.filter (fun e => allKindTags.contains (tagOf e))).filterMap classifyElem).filter
          isK =
        (l.filter (fun e => kt.contains (tagOf e))).filterMap f := by
  intro l
  induction l with
  | nil => rfl
  | cons e es ih =>
    by_cases h1 : kt.contains (tagOf e) = true
    · simp only [List.filter_cons]
      rw [if_pos (hsub _ h1), if_pos h1, List.filterMap_cons, List.filterMap_cons,
        ← hcls e h1]
      cases hx : classifyElem e with
      | none => simp only [hx]; exact ih
      | some sec =>
        simp only [hx]
        rw [List.filter_cons_of_pos (hpos e sec h1 hx), ih]
    · have h1f : kt.contains (tagOf e) = false := by
        cases hb : kt.contains (tagOf e)
        · rfl
        · exact absurd hb h1
      simp only [List.filter_cons]
      rw [if_neg h1]
      by_cases h2 : allKindTags.contains (tagOf e) = true
      · rw [if_pos h2, List.filterMap_cons]
        cases hx : classifyElem e with
        | none => simp only [hx]; exact ih
        | some sec =>
          simp only [hx]
          rw [List.filter_cons_of_neg (by rw [hneg e sec h1f hx]; exact Bool.false_ne_true),
            ih]
      · rw [if_neg h2]
        exact ih

/-- Every section stream is a permutation of its four kind
subsequences in order. -/
theorem section_partition (l : List Section) :
    List.Perm l
      (l.filter isHeadingSec ++ l.filter isParaSec ++ l.filter isLiSec ++
        l.filter isTableSec) := by
  induction l with
  | nil => exact List.Perm.refl _
  | cons x xs ih =>
    cases x with
    | heading lv t =>
      rw [List.filter_cons_of_pos (by rfl), List.filter_cons_of_neg (by simp [isParaSec]),
        List.filter_cons_of_neg (by simp [isLiSec]),
        List.filter_cons_of_neg (by simp [isTableSec])]
      exact ih.cons _
    | para t =>
      rw [List.filter_cons_of_neg (by simp [isHeadingSec]), List.filter_cons_of_pos (by rfl),
        List.filter_cons_of_neg (by simp [isLiSec]),
        List.filter_cons_of_neg (by simp [isTableSec])]
      exact (ih.cons _).trans
        (((List.perm_middle.symm).append_right (xs.filter isLiSec)).append_right
          (xs.filter isTableSec))
    | listItem t =>
      rw [List.filter_cons_of_neg (by simp [isHeadingSec]),
        List.filter_cons_of_neg (by simp [isParaSec]), List.filter_cons_of_pos (by rfl),
        List.filter_cons_of_neg (by simp [isTableSec])]
      exact (ih.cons _).trans ((List.perm_middle.symm).append_right (xs.filter isTableSec))
    | table t =>
      rw [List.filter_cons_of_neg (by simp [isHeadingSec]),
        List.filter_cons_of_neg (by simp [isParaSec]),
        List.filter_cons_of_neg (by simp [isLiSec]), List.filter_cons_of_pos (by rfl)]
      exact (ih.cons _).trans List.perm_middle.symm

/-- The heading subsequence of the document-order stream is the heading
group. -/
theorem specOrder_filter_h (m : Node) :
    (sectionsSpecOrder m).filter isHeadingSec = headingSecs m :=
  specOrder_filter_kind headingTags isHeadingSec _ (fun _ => all_of_h) (fun _ => classify_h)
    (fun _ _ => classify_pos_h) (fun _ _ h hc => classify_not_h h hc) (descElems m)

/-- The paragraph subsequence of the document-order stream is the
paragraph group. -/
theorem specOrder_filter_p (m : Node) :
    (sectionsSpecOrder m).filter isParaSec = paraSecs m :=
  specOrder_filter_kind ["p"] isParaSec _ (fun _ => all_of_p) (fun _ => classify_p)
    (fun _ _ => classify_pos_p) (fun _ _ h hc => classify_not_p h hc) (descElems m)

/-- The list-item subsequence of the document-order stream is the
list-item group. -/
theorem specOrder_filter_li (m : Node) :
    (sectionsSpecOrder m).filter isLiSec = liSecs m :=
  specOrder_filter_kind ["li"] isLiSec _ (fun _ => all_of_li) (fun _ => classify_li)
    (fun _ _ => classify_pos_li) (fun _ _ h hc => classify_not_li h hc) (descElems m)

/-- The table subsequence of the document-order stream is the table
group. -/
theorem specOrder_filter_t (m : Node) :
    (sectionsSpecOrder m).filter isTableSec = tableSecs m :=
  specOrder_filter_kind ["table"] isTableSec _ (fun _ => all_of_table) (fun _ => classify_table)
    (fun _ _ => classify_pos_table) (fun _ _ h hc => classify_not_table h hc) (descElems m)

/-- C4 amended: extractMainContent emits the same classified sections as a
single document-order walk would, as a multiset, but grouped by kind: all
headings first, then paragraphs, then list items, then tables, each group
internally in document order. -/
theorem sections_grouped_by_kind (m : Node) :
    (sectionsOf m).filter isHeadingSec = (sectionsSpecOrder m).filter isHeadingSec ∧
    (sectionsOf m).filter isParaSec = (sectionsSpecOrder m).filter isParaSec ∧
    (sectionsOf m).filter isLiSec = (sectionsSpecOrder m).filter isLiSec ∧
    (sectionsOf m).filter isTableSec = (sectionsSpecOrder m).filter isTableSec ∧
    List.Perm (sectionsOf m) (sectionsSpecOrder m) := by
  have hh : (sectionsOf m).filter isHeadingSec = (sectionsSpecOrder m).filter isHeadingSec := by
    rw [sectionsOf_filter_heading, specOrder_filter_h]
  have hp : (sectionsOf m).filter isParaSec = (sectionsSpecOrder m).filter isParaSec := by
    rw [sectionsOf_filter_para, specOrder_filter_p]
  have hl : (sectionsOf m).filter isLiSec = (sectionsSpecOrder m).filter isLiSec := by
    rw [sectionsOf_filter_li, specOrder_filter_li]
  have ht : (sectionsOf m).filter isTableSec = (sectionsSpecOrder m).filter isTableSec := by
    rw [sectionsOf_filter_table, specOrder_filter_t]
  refine ⟨hh, hp, hl, ht, ?_⟩
  have p1 := section_partition (sectionsOf m)
  have p2 := section_partition (sectionsSpecOrder m)
  rw [hh, hp, hl, ht] at p1
  exact p1.trans p2.symm

/-- C4 counterexample: a document whose paragraph precedes its heading is
emitted heading-first, so the output stream is not in document order. -/
theorem sections_docOrder_counterexample :
    ¬ (∀ m : Node, sectionsOf m = sectionsSpecOrder m) := by
  intro h
  exact absurd (h c4doc) (by decide)

/-- C9 amended: a paragraph is kept exactly when its trimmed text is
strictly longer than twenty characters, so a twenty-character paragraph is
discarded; a list item is kept exactly when strictly longer than ten
characters, so a ten-character list item is discarded. -/
theorem section_thresholds (m : Node) :
    (sectionsOf m).filter isParaSec =
      (((queryTags m ["p"]).map (fun e => jsTrim (textContentN e))).filter
        (fun t => decide (20 < t.length))).map Section.para ∧
    (sectionsOf m).filter isLiSec =
      (((queryTags m ["li"]).map (fun e => jsTrim (textContentN e))).filter
        (fun t => decide (10 < t.length))).map Section.listItem :=
  ⟨by rw [sectionsOf_filter_para, paraSecs_eq], by rw [sectionsOf_filter_li, liSecs_eq]⟩

/-- C9 counterexample: a paragraph of exactly twenty characters and a list
item of exactly ten characters are both discarded, against the claimed
thresholds of keeping them. -/
theorem section_thresholds_counterexample :
    ¬ (∀ m : Node,
      (sectionsOf m).filter isParaSec =
        (((queryTags m ["p"]).map (fun e => jsTrim (textContentN e))).filter
          (fun t => decide (20 ≤ t.length))).map Section.para ∧
      (sectionsOf m).filter isLiSec =
        (((queryTags m ["li"]).map (fun e => jsTrim (textContentN e))).filter
          (fun t => decide (10 ≤ t.length))).map Section.listItem) := by
  intro h
  exact absurd (h c9doc).1 (by decide)
